import Mathlib

/-!
rayTracingOneWeekend: row partitioning, image assembly, channel conversion,
scene configuration, the worker lifecycle, the rendering loop and the GUI loop

A shallow embedding of the parts of `main.cpp` that partition the image rows
over the render workers, size the per-worker buffers, copy them into the final
image buffer, convert a colour channel to 8 bits, read the scene configuration
and run the start / done / exit handshake between `main` and the workers; of
the row offset, the pixel layout and the rendering loop of
`raytraceWorkerProcedure`; and of the message loop of `guiWorkerProcedure`.

Conventions.
* `uint32_t`, `uint16_t` and `uint8_t` values are natural numbers; every
  operation that can leave the range is followed by an explicit `% 2 ^ w`.
* Loop counters are declared `int` in the source (`for (int i = 0; i < n; i++)`
  against an unsigned bound). The counter of the assembly loop is modelled with
  its range: an increment past `INT_MAX` has no defined result, and the loop
  then returns `none`. The counter of the creation loop is only compared with
  and assigned to unsigned values, and the counters of the rendering loop are
  natural numbers; the theorems about the rendering loop carry size bounds that
  keep them below `2 ^ 31`.
* Memory obtained from `new uint8_t[n]` is not initialised by the source; its
  contents are a parameter of the model.
-/

namespace RayTracer

/-! ## Constants of `defines.h` -/

/-- `#define DEFAULT_RENDER_WIDTH 600`. -/
def DEFAULT_RENDER_WIDTH : Nat := 600

/-- `#define DEFAULT_RENDER_HEIGHT 600`. -/
def DEFAULT_RENDER_HEIGHT : Nat := 600

/-- `#define DEFAULT_RENDER_AA 1`. -/
def DEFAULT_RENDER_AA : Nat := 1

/-- `#define DEBUG_RUN_THREADS 8`. -/
def DEBUG_RUN_THREADS : Nat := 8

/-! ## Data model (`main.cpp`, lines 46-71) -/

/-- `struct RenderProperties`: three `uint32_t` sizes, a `uint8_t` pixel width
and the `uint32_t` size of the final image buffer. -/
structure RenderProperties where
  resWidthInPixels : Nat
  resHeightInPixels : Nat
  bytesPerPixel : Nat
  antiAliasingSamplesPerPixel : Nat
  finalImageBufferSizeInBytes : Nat
  deriving DecidableEq

/-- `struct WorkerImageBuffer`: the declared size, the worker's resolution and
the bytes behind `buffer`. -/
structure WorkerImageBuffer where
  sizeInBytes : Nat
  resWidthInPixels : Nat
  resHeightInPixels : Nat
  buffer : List Nat
  deriving DecidableEq

/-- Arithmetic on `uint32_t` is modulo `2 ^ 32`. -/
def wrap32 (n : Nat) : Nat := n % 2 ^ 32

/-- `INT_MAX`, the largest value of an `int`: the bound of the loop counters and
the count passed to `std::cin.ignore`. -/
def INT_MAX : Nat := 2 ^ 31 - 1

/-! ## `main`: sizing the final buffer (lines 122-123) -/

/-- Line 123 of `main`:
`finalImageBufferSizeInBytes = resWidthInPixels * resHeightInPixels * bytesPerPixel`
in `uint32_t` arithmetic. -/
def finalImageBufferSize (rp : RenderProperties) : Nat :=
  wrap32 (wrap32 (rp.resWidthInPixels * rp.resHeightInPixels) * rp.bytesPerPixel)

/-- Lines 122-123 of `main`: store the pixel width (argument `bpp`, the value of
`winDIBBmp.getBitsPerPixel() / 8`) and the final buffer size. -/
def setBufferProperties (rp : RenderProperties) (bpp : Nat) : RenderProperties :=
  let rp1 := { rp with bytesPerPixel := bpp }
  { rp1 with finalImageBufferSizeInBytes := finalImageBufferSize rp1 }

/-! ## `main`: creating the workers (lines 180-208) -/

/-- Lines 185-191 of `main`: the rows given to the worker created in iteration
`i` of the creation loop. Every worker starts from `H / numOfThreads`; the
iteration with `i == numOfThreads - 1` adds `H % numOfThreads`. -/
def workerRows (rp : RenderProperties) (numOfThreads i : Nat) : Nat :=
  let rows := rp.resHeightInPixels / numOfThreads
  if i = wrap32 (numOfThreads + 2 ^ 32 - 1) then
    wrap32 (rows + rp.resHeightInPixels % numOfThreads)
  else
    rows

/-- Lines 182-198 of `main`: the `WorkerImageBuffer` built in iteration `i`.
`uninit` gives the indeterminate bytes of the fresh allocation. -/
def createWorkerImageBuffer (rp : RenderProperties) (numOfThreads : Nat)
    (uninit : Nat → Nat → Nat) (i : Nat) : WorkerImageBuffer :=
  let rows := workerRows rp numOfThreads i
  let width := rp.resWidthInPixels
  let size := wrap32 (wrap32 (rows * width) * rp.bytesPerPixel)
  { sizeInBytes := size
    resWidthInPixels := width
    resHeightInPixels := rows
    buffer := (List.range size).map (uninit i) }

/-- The creation loop of `main` (line 180): one buffer per `i` in
`0 .. numOfThreads - 1`, pushed in that order. -/
def workerImageBufferVector (rp : RenderProperties) (numOfThreads : Nat)
    (uninit : Nat → Nat → Nat) : List WorkerImageBuffer :=
  (List.range numOfThreads).map (createWorkerImageBuffer rp numOfThreads uninit)

/-! ## `main`: assembling the final image (lines 240-251) -/

/-- The variables of the assembly loop: the bytes at `finalImageBuffer.get()[k]`
for every offset `k` (a function of the offset, so that a write at any offset
is visible) and the `uint32_t` cursor `finalBufferIndex`. -/
structure AssemblyState where
  finalImageBuffer : Nat → Nat
  finalBufferIndex : Nat

/-- Lines 246-249 of `main`: the body of the inner loop at counter `i`. A byte is
copied, and the cursor advanced, only while
`finalBufferIndex < finalImageBufferSizeInBytes`. A read of
`workerImageBuffer->buffer.get()[i]` past the bytes held is modelled as `0`. -/
def copyByte (finalImageBufferSizeInBytes : Nat) (wb : WorkerImageBuffer)
    (s : AssemblyState) (i : Nat) : AssemblyState :=
  if s.finalBufferIndex < finalImageBufferSizeInBytes then
    { finalImageBuffer :=
        Function.update s.finalImageBuffer s.finalBufferIndex (wb.buffer.getD i 0)
      finalBufferIndex := wrap32 (s.finalBufferIndex + 1) }
  else
    s

/-- Lines 245-250 of `main`: one iteration of the inner loop at counter `i`, the
body and then `i++`. The counter is an `int`: incrementing it at `INT_MAX` is a
signed overflow, which has no defined result. -/
def copyStep (finalImageBufferSizeInBytes : Nat) (wb : WorkerImageBuffer)
    (s : AssemblyState) (i : Nat) : Option AssemblyState :=
  if i < INT_MAX then some (copyByte finalImageBufferSizeInBytes wb s i) else none

/-- Line 245 of `main`: the inner loop,
`for (int i = 0; i < workerImageBuffer->sizeInBytes; i++)`. The body runs for
`i = 0, ..., sizeInBytes - 1` in order; the result is `none` when the `int`
counter overflows on the way, that is when `sizeInBytes` exceeds `INT_MAX`. -/
def copyWorkerBuffer (finalImageBufferSizeInBytes : Nat) (s : AssemblyState)
    (wb : WorkerImageBuffer) : Option AssemblyState :=
  (List.range wb.sizeInBytes).foldlM (copyStep finalImageBufferSizeInBytes wb) s

/-- Lines 240-251 of `main`: `finalBufferIndex = 0`, then the outer loop over
`workerImageBufferVector` in order. `uninit` is the content of the final buffer
before the loop. The result is `none` when an inner loop has none. -/
def assembleFinalImage (finalImageBufferSizeInBytes : Nat) (uninit : Nat → Nat)
    (workerImageBufferVector : List WorkerImageBuffer) : Option AssemblyState :=
  workerImageBufferVector.foldlM (copyWorkerBuffer finalImageBufferSizeInBytes)
    { finalImageBuffer := uninit, finalBufferIndex := 0 }

/-- The bytes the inner loop reads from one worker, in reading order. -/
def sourceBytes (wb : WorkerImageBuffer) : List Nat :=
  (List.range wb.sizeInBytes).map (fun i => wb.buffer.getD i 0)

/-- Sum of the declared sizes of a list of worker buffers. -/
def totalSize (bufs : List WorkerImageBuffer) : Nat :=
  (bufs.map (fun wb => wb.sizeInBytes)).sum

/-- Offset at which worker `j` starts under worker-size partitioning: the sum of
the sizes of the workers before `j`. -/
def startOffset (bufs : List WorkerImageBuffer) (j : Nat) : Nat :=
  totalSize (bufs.take j)

/-! ## `raytraceWorkerProcedure`: channel conversion (lines 585-596) -/

/-- Lines 589-591: `uint16_t irO = uint16_t(255.99 * outputColor[0])`. The
argument `n` is the integer part of the non-negative product. Below `2 ^ 16`
the conversion is exact. A larger value does not fit `uint16_t` and C++ leaves
the result of the conversion undefined; the model takes the low 16 bits, which
is what the conversion leaves on the x86 target and the modulo behaviour the
source comment on line 583 records for the 8-bit conversion ("362 becomes
106"). -/
def toUint16 (n : Nat) : Nat := n % 2 ^ 16

/-- Line 594: `(irO > 255) ? ir = 255 : ir = uint8_t(irO)`. -/
def capChannel (irO : Nat) : Nat :=
  if irO > 255 then 255 else irO % 2 ^ 8

/-- The 8-bit channel written for a scaled channel value with integer part `n`:
lines 589 and 594 in sequence (the same code for `ir`, `ig` and `ib`). -/
def channelByte (n : Nat) : Nat := capChannel (toUint16 n)

/-! ## `configureScene` (lines 428-513) -/

/-- `#define BYPASS_SCENE_CONFIG 1`. -/
def BYPASS_SCENE_CONFIG : Nat := 1

/-- `std::cin.ignore(limit, '\n')` on the remaining input: characters are
discarded until `limit` of them are gone, a newline has been discarded, or the
input ends. -/
def cinIgnore (limit : Nat) : List Char → List Char
  | [] => []
  | c :: cs =>
    if limit = 0 then c :: cs
    else if c = '\n' then cs
    else cinIgnore (limit - 1) cs

/-- One prompt of `configureScene`, from `std::cin.peek()` on (lines 441-461 for
the width; the same code for the height and the sample count). `current` is the
value of the field before the prompt and `input` the remaining standard input.
`extract` stands for `std::cin >> field`: it returns `none` when the extraction
sets `failbit` and the number read otherwise, together with the input left.
* `peek() == '\n'`: the field keeps `current`;
* extraction failed: `clear`, `ignore(INT_MAX, '\n')`, the field becomes
  `minimum` (the `DEFAULT_...` constant);
* extraction succeeded: a value below `minimum` is replaced by `minimum`. -/
def promptField (extract : List Char → Option Nat × List Char) (minimum current : Nat)
    (input : List Char) : Nat × List Char :=
  if input.head? = some '\n' then
    (current, input)
  else
    match extract input with
    | (none, rest) => (minimum, cinIgnore INT_MAX rest)
    | (some x, rest) => (if x < minimum then minimum else x, rest)

/-- Lines 430-432 of `configureScene`: the three defaults. -/
def setDefaults (rp : RenderProperties) : RenderProperties :=
  { rp with
    resHeightInPixels := DEFAULT_RENDER_HEIGHT
    resWidthInPixels := DEFAULT_RENDER_WIDTH
    antiAliasingSamplesPerPixel := DEFAULT_RENDER_AA }

/-- Lines 436-461: the width prompt (no `ignore` before the `peek`). -/
def promptWidth (extract : List Char → Option Nat × List Char)
    (s : RenderProperties × List Char) : RenderProperties × List Char :=
  let r := promptField extract DEFAULT_RENDER_WIDTH s.1.resWidthInPixels s.2
  ({ s.1 with resWidthInPixels := r.1 }, r.2)

/-- Lines 463-486: the height prompt; `std::cin.ignore(INT_MAX, '\n')` runs
before the `peek`. -/
def promptHeight (extract : List Char → Option Nat × List Char)
    (s : RenderProperties × List Char) : RenderProperties × List Char :=
  let r := promptField extract DEFAULT_RENDER_HEIGHT s.1.resHeightInPixels
    (cinIgnore INT_MAX s.2)
  ({ s.1 with resHeightInPixels := r.1 }, r.2)

/-- Lines 488-511: the prompt for the antialiasing sample count; again
`std::cin.ignore(INT_MAX, '\n')` runs before the `peek`. -/
def promptSamples (extract : List Char → Option Nat × List Char)
    (s : RenderProperties × List Char) : RenderProperties × List Char :=
  let r := promptField extract DEFAULT_RENDER_AA s.1.antiAliasingSamplesPerPixel
    (cinIgnore INT_MAX s.2)
  ({ s.1 with antiAliasingSamplesPerPixel := r.1 }, r.2)

/-- `configureScene`: the defaults, then, when compiled with
`BYPASS_SCENE_CONFIG == 0` (argument `bypass`), the three prompts in order.
Returns the properties and the input left unread. -/
def configureScene (bypass : Nat) (extract : List Char → Option Nat × List Char)
    (rp : RenderProperties) (input : List Char) : RenderProperties × List Char :=
  if bypass = 0 then
    promptSamples extract (promptHeight extract (promptWidth extract (setDefaults rp, input)))
  else
    (setDefaults rp, input)

/-- A reader of unsigned decimal numbers, used to run `configureScene` on
concrete input: leading blanks are skipped, then the digits are read; no digit,
or a value that does not fit `uint32_t`, is a failure. -/
def readDecimal (input : List Char) : Option Nat × List Char :=
  let body := input.dropWhile (fun c => c = ' ' || c = '\n' || c = '\t')
  let digits := body.takeWhile Char.isDigit
  let rest := body.dropWhile Char.isDigit
  let value := digits.foldl (fun acc c => 10 * acc + (c.toNat - '0'.toNat)) 0
  if digits = [] then (none, rest)
  else if value < 2 ^ 32 then (some value, rest)
  else (none, rest)

/-! ## Worker lifecycle: `main` (lines 180-251) against
`raytraceWorkerProcedure` (lines 543-630)

`main` and the render workers are threads over shared flags. Every access to a
flag happens under that flag's mutex, so an execution is an interleaving of the
steps below, chosen by a schedule. A thread scheduled while it is blocked in
`while (!flag) cv.wait(lock)` or in `join()` re-checks and keeps waiting: the
state is unchanged.

How long a thread keeps a mutex is not part of the state (a worker keeps
`startMutex` from line 543 to its return, `main` keeps `workIsDoneMutex` during
an iteration of the join loop, `coutGuard` serialises the printing). Waiting for
a mutex only delays a step, so every execution of the program is an execution
under some schedule, and an ordering that holds under all schedules holds of the
program. The executions used as concrete examples below take each mutex when it
is free. The GUI thread and the console output play no part in the flags of the
render workers and are left out. -/

/-- The data fields of `struct WorkerThread` (lines 53-65). -/
structure WorkerThread where
  id : Nat
  workIsDone : Bool
  exit : Bool
  start : Bool
  deriving DecidableEq

/-- Control points of `raytraceWorkerProcedure`. -/
inductive WorkerPc where
  /-- Lines 543-546: `while (!start) startConditionVar.wait(startLock)`. -/
  | waitStart
  /-- Lines 562-609: the rendering loop, `stored` pixels already written. -/
  | rendering (stored : Nat)
  /-- Lines 613-616: about to set `workIsDone = true`. -/
  | publishDone
  /-- Lines 623-626: `while (!exit) exitConditionVar.wait(exitLock)`. -/
  | waitExit
  /-- Line 630: the thread function has returned. -/
  | returned
  deriving DecidableEq

/-- Control points of `main` from the creation loop on; the argument is the
loop counter (the position in `workerThreadVector`). -/
inductive MainPc where
  /-- Line 180: head of the creation loop. -/
  | create (i : Nat)
  /-- Line 211: head of the start loop. -/
  | start (i : Nat)
  /-- Lines 219-224: head of the join loop and the wait for `workIsDone`. -/
  | waitDone (i : Nat)
  /-- Lines 227-230: about to set `exit = true`. -/
  | setExit (i : Nat)
  /-- Lines 232-234: `handle.join()`. -/
  | join (i : Nat)
  /-- Lines 242-251: about to copy the buffer of worker `i`. -/
  | assemble (i : Nat)
  /-- Line 253 on. -/
  | finished
  deriving DecidableEq

/-- What a step does to the shared flags and buffers. -/
inductive Event where
  /-- Lines 200-207: `main` has created worker `i` and its thread. -/
  | workerCreated (i : Nat)
  /-- Line 213: `main` has set `start = true` for worker `i`. -/
  | startSet (i : Nat)
  /-- Line 222: `main` has read `workIsDone == true` of worker `i`. -/
  | doneObserved (i : Nat)
  /-- Line 228: `main` has set `exit = true` for worker `i`. -/
  | exitSet (i : Nat)
  /-- Line 233: `join()` on worker `i` has returned. -/
  | joined (i : Nat)
  /-- Lines 245-250: `main` has read the buffer of worker `i`. -/
  | bufferRead (i : Nat)
  /-- Line 544: worker `i` has read `start == true` and left the wait loop. -/
  | startObserved (i : Nat)
  /-- Lines 604-606: worker `i` has written pixel number `pixel` of its loop. -/
  | bufferWrite (i pixel : Nat)
  /-- Line 614: worker `i` has set `workIsDone = true`. -/
  | donePublished (i : Nat)
  /-- Line 624: worker `i` has read `exit == true` and left the wait loop. -/
  | exitObserved (i : Nat)
  deriving DecidableEq

/-- A render worker: its `WorkerThread`, the control point of its thread and the
number of iterations of its rendering loop (rows times width of its buffer). -/
structure Worker where
  thread : WorkerThread
  pc : WorkerPc
  pixels : Nat
  deriving DecidableEq

/-- The state of an execution: where `main` is, `workerThreadVector`, and the
events so far, oldest first. -/
structure System where
  mainPc : MainPc
  workers : List Worker
  trace : List Event
  deriving DecidableEq

/-- What an execution depends on: the render properties, the thread count, and
the values found in the `start` and `exit` fields of each freshly allocated
`WorkerThread` (`new WorkerThread` leaves them indeterminate and `main` assigns
only `id` and `workIsDone` before it starts the thread, lines 200-205). -/
structure Setup where
  renderProps : RenderProperties
  numOfThreads : Nat
  uninitStart : Nat → Bool
  uninitExit : Nat → Bool

/-- The threads of the execution. -/
inductive ThreadId where
  | main
  | worker (i : Nat)
  deriving DecidableEq

/-- Lines 200-205 of `main`: the worker created in iteration `i`. -/
def newWorker (cfg : Setup) (i : Nat) : Worker :=
  { thread :=
      { id := i
        workIsDone := false
        exit := cfg.uninitExit i
        start := cfg.uninitStart i }
    pc := WorkerPc.waitStart
    pixels := workerRows cfg.renderProps cfg.numOfThreads i * cfg.renderProps.resWidthInPixels }

/-- One step of `main`. -/
def mainStep (cfg : Setup) (s : System) : System :=
  match s.mainPc with
  | MainPc.create i =>
    if i < cfg.numOfThreads then
      { mainPc := MainPc.create (i + 1)
        workers := s.workers ++ [newWorker cfg i]
        trace := s.trace ++ [Event.workerCreated i] }
    else
      { s with mainPc := MainPc.start 0 }
  | MainPc.start i =>
    match s.workers[i]? with
    | some w =>
      { mainPc := MainPc.start (i + 1)
        workers := s.workers.set i { w with thread := { w.thread with start := true } }
        trace := s.trace ++ [Event.startSet i] }
    | none => { s with mainPc := MainPc.waitDone 0 }
  | MainPc.waitDone i =>
    match s.workers[i]? with
    | some w =>
      if w.thread.workIsDone then
        { s with mainPc := MainPc.setExit i, trace := s.trace ++ [Event.doneObserved i] }
      else
        s
    | none => { s with mainPc := MainPc.assemble 0 }
  | MainPc.setExit i =>
    match s.workers[i]? with
    | some w =>
      { mainPc := MainPc.join i
        workers := s.workers.set i { w with thread := { w.thread with exit := true } }
        trace := s.trace ++ [Event.exitSet i] }
    | none => s
  | MainPc.join i =>
    match s.workers[i]? with
    | some w =>
      if w.pc = WorkerPc.returned then
        { s with mainPc := MainPc.waitDone (i + 1), trace := s.trace ++ [Event.joined i] }
      else
        s
    | none => s
  | MainPc.assemble i =>
    if i < s.workers.length then
      { s with mainPc := MainPc.assemble (i + 1), trace := s.trace ++ [Event.bufferRead i] }
    else
      { s with mainPc := MainPc.finished }
  | MainPc.finished => s

/-- One step of the thread of worker `i` (`raytraceWorkerProcedure`). -/
def workerStep (s : System) (i : Nat) : System :=
  match s.workers[i]? with
  | none => s
  | some w =>
    match w.pc with
    | WorkerPc.waitStart =>
      if w.thread.start then
        { s with
          workers := s.workers.set i { w with pc := WorkerPc.rendering 0 }
          trace := s.trace ++ [Event.startObserved i] }
      else
        s
    | WorkerPc.rendering stored =>
      if stored < w.pixels then
        { s with
          workers := s.workers.set i { w with pc := WorkerPc.rendering (stored + 1) }
          trace := s.trace ++ [Event.bufferWrite i stored] }
      else
        { s with workers := s.workers.set i { w with pc := WorkerPc.publishDone } }
    | WorkerPc.publishDone =>
      { s with
        workers := s.workers.set i
          { w with thread := { w.thread with workIsDone := true }, pc := WorkerPc.waitExit }
        trace := s.trace ++ [Event.donePublished i] }
    | WorkerPc.waitExit =>
      if w.thread.exit then
        { s with
          workers := s.workers.set i { w with pc := WorkerPc.returned }
          trace := s.trace ++ [Event.exitObserved i] }
      else
        s
    | WorkerPc.returned => s

/-- One step of the scheduled thread. -/
def step (cfg : Setup) (s : System) : ThreadId → System
  | ThreadId.main => mainStep cfg s
  | ThreadId.worker i => workerStep s i

/-- Line 180: `main` enters the creation loop with no worker created. -/
def initialSystem : System :=
  { mainPc := MainPc.create 0, workers := [], trace := [] }

/-- The execution under a schedule: the state after the scheduled steps. -/
def run (cfg : Setup) (schedule : List ThreadId) : System :=
  schedule.foldl (step cfg) initialSystem

/-- In the trace `t`, every occurrence of `b` comes after an occurrence of
`a`. -/
def Precedes (t : List Event) (a b : Event) : Prop :=
  ∀ n : Nat, t[n]? = some b → ∃ m : Nat, m < n ∧ t[m]? = some a

/-- In the trace `t`, no occurrence of `b` comes after an occurrence of `a`:
every `b` is strictly before every `a`. -/
def NeverAfter (t : List Event) (a b : Event) : Prop :=
  ∀ n m : Nat, t[n]? = some b → t[m]? = some a → n < m

/-- The workers whose `workIsDone` flag `main` has read as `true` when it is at
control point `pc` (`len` is the size of `workerThreadVector`): the join loop
passes the wait of worker `j` before it reaches worker `j + 1`. -/
def mainObserved (pc : MainPc) (len j : Nat) : Prop :=
  match pc with
  | MainPc.create _ => False
  | MainPc.start _ => False
  | MainPc.waitDone k => j < k
  | MainPc.setExit k => j ≤ k
  | MainPc.join k => j ≤ k
  | MainPc.assemble _ => j < len
  | MainPc.finished => j < len

/-- The invariant of the lifecycle: the ordering facts about the trace, and what
links the trace to the flags and control points. -/
structure Inv (cfg : Setup) (s : System) : Prop where
  readAfterObs : ∀ i, Precedes s.trace (Event.doneObserved i) (Event.bufferRead i)
  exitAfterObs : ∀ k j, j ≤ k → Precedes s.trace (Event.doneObserved j) (Event.exitSet k)
  noWriteAfterDone :
    ∀ i p, NeverAfter s.trace (Event.donePublished i) (Event.bufferWrite i p)
  obsAfterPub : ∀ i, Precedes s.trace (Event.donePublished i) (Event.doneObserved i)
  startGate : (∀ k, cfg.uninitStart k = false) →
    ∀ i, Precedes s.trace (Event.startSet i) (Event.startObserved i)
  observed : ∀ j, mainObserved s.mainPc s.workers.length j →
    Event.doneObserved j ∈ s.trace
  doneFlag : ∀ i w, s.workers[i]? = some w → w.thread.workIsDone = true →
    Event.donePublished i ∈ s.trace
  pubPc : ∀ i w, s.workers[i]? = some w → Event.donePublished i ∈ s.trace →
    w.pc = WorkerPc.waitExit ∨ w.pc = WorkerPc.returned
  pubLt : ∀ i, Event.donePublished i ∈ s.trace → i < s.workers.length
  startFlag : (∀ k, cfg.uninitStart k = false) →
    ∀ i w, s.workers[i]? = some w → w.thread.start = true →
      Event.startSet i ∈ s.trace

/-! ## `raytraceWorkerProcedure`: row offset, pixel layout and the rendering loop
(lines 552-609) -/

/-- Lines 552-560: `rowOffsetInPixels` of the worker with `id`, whose buffer is
`wb`. `numOfThreads` is the thread count the procedure reads again from
`DEBUG_RUN_THREADS`. The last worker multiplies its id by
`resHeightInPixels / numOfThreads`, every other worker by the rows of its own
buffer; both products are `uint32_t`. -/
def rowOffsetInPixels (rp : RenderProperties) (numOfThreads id : Nat)
    (wb : WorkerImageBuffer) : Nat :=
  if id = wrap32 (numOfThreads + 2 ^ 32 - 1) then
    wrap32 (id * (rp.resHeightInPixels / numOfThreads))
  else
    wrap32 (id * wb.resHeightInPixels)

/-- Line 599: the row passed to `SetPixel`,
`renderProps.resHeightInPixels - (row + rowOffsetInPixels)`, in `uint32_t`
arithmetic. -/
def setPixelRow (rp : RenderProperties) (row rowOffset : Nat) : Nat :=
  wrap32 (rp.resHeightInPixels + 2 ^ 32 - wrap32 (row + rowOffset))

/-- Line 603: `bufferIndex = row * resWidthInPixels * bytesPerPixel
+ (column * bytesPerPixel)`, a `uint32_t`. -/
def bufferIndex (rp : RenderProperties) (row column : Nat) : Nat :=
  wrap32 (wrap32 (wrap32 (row * rp.resWidthInPixels) * rp.bytesPerPixel)
    + wrap32 (column * rp.bytesPerPixel))

/-- The three 8-bit channels `ir`, `ig`, `ib` of lines 585-596. -/
structure Channels where
  ir : Nat
  ig : Nat
  ib : Nat
  deriving DecidableEq

/-- Lines 603-606: the three stores of one pixel, `ib` at `bufferIndex`, `ig` at
`bufferIndex + 1` and `ir` at `bufferIndex + 2`. `color row column` stands for
the channels that lines 565-596 compute for this pixel. -/
def storePixel (rp : RenderProperties) (color : Nat → Nat → Channels)
    (buffer : List Nat) (row column : Nat) : List Nat :=
  let index := bufferIndex rp row column
  ((buffer.set index (color row column).ib).set (wrap32 (index + 1))
    (color row column).ig).set (wrap32 (index + 2)) (color row column).ir

/-- Line 563: the inner loop over `column = 0 .. resWidthInPixels - 1` of the
worker's buffer. -/
def renderRow (rp : RenderProperties) (color : Nat → Nat → Channels)
    (wb : WorkerImageBuffer) (buffer : List Nat) (row : Nat) : List Nat :=
  (List.range wb.resWidthInPixels).foldl
    (fun buf column => storePixel rp color buf row column) buffer

/-- Lines 562-609: the rendering loop, `row` from `resHeightInPixels - 1` down to
`0`; the result is the worker's buffer with the pixels stored. -/
def renderWorkerBuffer (rp : RenderProperties) (color : Nat → Nat → Channels)
    (wb : WorkerImageBuffer) : WorkerImageBuffer :=
  { wb with
    buffer := (List.range wb.resHeightInPixels).reverse.foldl (renderRow rp color wb)
      wb.buffer }

/-- The `(row, column)` pairs in the order the rendering loop visits them. -/
def renderLoopPixels (wb : WorkerImageBuffer) : List (Nat × Nat) :=
  (List.range wb.resHeightInPixels).reverse.flatMap
    (fun row => (List.range wb.resWidthInPixels).map (fun column => (row, column)))

/-- The worker buffers after every worker has run its rendering loop: worker `i`
renders the buffer `main` created in iteration `i`; `color i` gives the channels
worker `i` computes. -/
def renderedBufferVector (rp : RenderProperties) (numOfThreads : Nat)
    (uninit : Nat → Nat → Nat) (color : Nat → Nat → Nat → Channels) :
    List WorkerImageBuffer :=
  (List.range numOfThreads).map
    (fun i => renderWorkerBuffer rp (color i) (createWorkerImageBuffer rp numOfThreads uninit i))

/-- Line 570: the row a sample is taken at, `row + rowOffsetInPixels` (before
the random jitter and the division by the height). -/
def sampledRow (row rowOffset : Nat) : Nat := row + rowOffset

/-- Lines 565-596 for a worker with row offset `rowOffset`: the channels of the
pixel at local `(row, column)` are those of the image at the sampled row and
the column; `shade g column` stands for what the sampling computes there. -/
def workerColor (shade : Nat → Nat → Channels) (rowOffset : Nat) :
    Nat → Nat → Channels :=
  fun row column => shade (sampledRow row rowOffset) column

/-- The worker buffers after rendering, every worker sampling the image `shade`
at its own row offset. -/
def renderedImageBuffers (rp : RenderProperties) (numOfThreads : Nat)
    (uninit : Nat → Nat → Nat) (shade : Nat → Nat → Channels) :
    List WorkerImageBuffer :=
  renderedBufferVector rp numOfThreads uninit
    (fun i => workerColor shade
      (rowOffsetInPixels rp numOfThreads i (createWorkerImageBuffer rp numOfThreads uninit i)))

/-! ## `guiWorkerProcedure`: the message loop (`main.cpp` lines 684-701,
`winGUI.h` lines 86-102) -/

/-- One evaluation of the loop condition: the value `GetMessage` returns (a
`BOOL`, that is an `int`: `-1` on error, `0` on `WM_QUIT`) and the value of the
`exit` flag at that moment. -/
structure Retrieval where
  getMessage : Int
  exit : Bool
  deriving DecidableEq

/-- What the message loop does that can be seen from outside. -/
inductive GuiEvent where
  /-- Line 693: "An error occured when calling GetMessage()" is printed. -/
  | errorLogged
  /-- Line 697: `DispatchMessage(&msg)`. -/
  | messageDispatched
  deriving DecidableEq

/-- How the message loop ends on a given sequence of retrievals. -/
inductive LoopEnd where
  /-- Line 694: `return -1` (the argument is the value returned). -/
  | returned (code : Int)
  /-- The loop condition was false: control goes on after the loop. -/
  | left
  /-- The retrievals given are used up and the loop is still running. -/
  | running
  deriving DecidableEq

/-- Integral promotion of a `bool`, as in `status == -1`. -/
def boolToInt (b : Bool) : Int := if b then 1 else 0

/-- Lines 688-700: the message loop. In
`status = GetMessage(&msg, 0, 0, 0) != 0 && workerThreadStruct->exit == false`
the assignment binds last, so the `bool status` receives the value of the whole
condition; `exit` is read only when `GetMessage` did not return `0`. -/
def guiMessageLoop : List Retrieval → List GuiEvent × LoopEnd
  | [] => ([], LoopEnd.running)
  | r :: rest =>
    let status : Bool := (r.getMessage != 0) && (r.exit == false)
    if status then
      if boolToInt status = -1 then
        ([GuiEvent.errorLogged], LoopEnd.returned (-1))
      else
        (GuiEvent.messageDispatched :: (guiMessageLoop rest).1, (guiMessageLoop rest).2)
    else
      ([], LoopEnd.left)

/-! ## Row partitioning -/

theorem wrap32_of_lt {n : Nat} (h : n < 2 ^ 32) : wrap32 n = n :=
  Nat.mod_eq_of_lt h

/-- The rows of worker `i` in closed form, for a thread count that fits
`uint32_t`. -/
theorem workerRows_eq (rp : RenderProperties) (N i : Nat) (hN : 1 ≤ N)
    (hN32 : N < 2 ^ 32) (hH : rp.resHeightInPixels < 2 ^ 32) :
    workerRows rp N i =
      if i = N - 1 then rp.resHeightInPixels / N + rp.resHeightInPixels % N
      else rp.resHeightInPixels / N := by
  have h1 : wrap32 (N + 2 ^ 32 - 1) = N - 1 := by
    unfold wrap32
    omega
  have h2 : rp.resHeightInPixels / N + rp.resHeightInPixels % N < 2 ^ 32 := by
    have := Nat.div_add_mod rp.resHeightInPixels N
    have h3 : rp.resHeightInPixels / N ≤ N * (rp.resHeightInPixels / N) :=
      Nat.le_mul_of_pos_left _ hN
    omega
  unfold workerRows
  simp only [h1, wrap32_of_lt h2]

theorem workerImageBufferVector_length (rp : RenderProperties) (N : Nat)
    (uninit : Nat → Nat → Nat) : (workerImageBufferVector rp N uninit).length = N := by
  simp [workerImageBufferVector]

theorem workerImageBufferVector_getElem? (rp : RenderProperties) (N : Nat)
    (uninit : Nat → Nat → Nat) (i : Nat) (hi : i < N) :
    (workerImageBufferVector rp N uninit)[i]? =
      some (createWorkerImageBuffer rp N uninit i) := by
  simp [workerImageBufferVector, List.getElem?_map, List.getElem?_range hi]

/-- Claim C1. For every height `H` and worker count `N >= 1` (both `uint32_t`),
every worker with index `i < N - 1` is given exactly `H / N` rows and the last
worker, `i = N - 1`, exactly `H / N + H % N` rows. -/
theorem C1_row_partition (rp : RenderProperties) (N : Nat) (uninit : Nat → Nat → Nat)
    (hN : 1 ≤ N) (hN32 : N < 2 ^ 32) (hH : rp.resHeightInPixels < 2 ^ 32) :
    (∀ i, i < N - 1 →
      ((workerImageBufferVector rp N uninit)[i]?).map (fun wb => wb.resHeightInPixels)
        = some (rp.resHeightInPixels / N)) ∧
    ((workerImageBufferVector rp N uninit)[N - 1]?).map (fun wb => wb.resHeightInPixels)
        = some (rp.resHeightInPixels / N + rp.resHeightInPixels % N) := by
  constructor
  · intro i hi
    have hiN : i < N := by omega
    rw [workerImageBufferVector_getElem? rp N uninit i hiN]
    have hne : i ≠ N - 1 := by omega
    simp [createWorkerImageBuffer, workerRows_eq rp N i hN hN32 hH, hne]
  · have hiN : N - 1 < N := by omega
    rw [workerImageBufferVector_getElem? rp N uninit (N - 1) hiN]
    simp [createWorkerImageBuffer, workerRows_eq rp N (N - 1) hN hN32 hH]

/-- Witness of C1: height 10 over 4 workers gives rows 2, 2, 2, 4. -/
theorem C1_row_partition_witness :
    (1 ≤ 4 ∧ 4 < 2 ^ 32 ∧ 10 < 2 ^ 32) ∧
    ((workerImageBufferVector ⟨3, 10, 3, 1, 90⟩ 4 (fun _ _ => 0))[0]?).map
        (fun wb => wb.resHeightInPixels) = some (10 / 4) ∧
    ((workerImageBufferVector ⟨3, 10, 3, 1, 90⟩ 4 (fun _ _ => 0))[2]?).map
        (fun wb => wb.resHeightInPixels) = some (10 / 4) ∧
    ((workerImageBufferVector ⟨3, 10, 3, 1, 90⟩ 4 (fun _ _ => 0))[4 - 1]?).map
        (fun wb => wb.resHeightInPixels) = some (10 / 4 + 10 % 4) :=
  ⟨by decide,
   (C1_row_partition ⟨3, 10, 3, 1, 90⟩ 4 (fun _ _ => 0) (by decide) (by decide)
      (by decide)).1 0 (by decide),
   (C1_row_partition ⟨3, 10, 3, 1, 90⟩ 4 (fun _ _ => 0) (by decide) (by decide)
      (by decide)).1 2 (by decide),
   (C1_row_partition ⟨3, 10, 3, 1, 90⟩ 4 (fun _ _ => 0) (by decide) (by decide)
      (by decide)).2⟩

theorem sum_workerRows (rp : RenderProperties) (N : Nat) (hN : 1 ≤ N)
    (hN32 : N < 2 ^ 32) (hH : rp.resHeightInPixels < 2 ^ 32) :
    ((List.range N).map (workerRows rp N)).sum = rp.resHeightInPixels := by
  obtain ⟨M, rfl⟩ : ∃ M, N = M + 1 := ⟨N - 1, by omega⟩
  rw [List.range_succ, List.map_append, List.sum_append]
  have hfront : (List.range M).map (workerRows rp (M + 1))
      = (List.range M).map (fun _ => rp.resHeightInPixels / (M + 1)) := by
    apply List.map_congr_left
    intro i hi
    have hi' : i < M := List.mem_range.mp hi
    have hne : i ≠ M + 1 - 1 := by omega
    rw [workerRows_eq rp (M + 1) i hN hN32 hH, if_neg hne]
  rw [hfront]
  simp only [List.map_const', List.length_range, List.sum_replicate, smul_eq_mul,
    List.map_cons, List.map_nil, List.sum_cons, List.sum_nil, add_zero]
  rw [workerRows_eq rp (M + 1) M hN hN32 hH]
  simp only [Nat.add_sub_cancel, if_true]
  have := Nat.div_add_mod rp.resHeightInPixels (M + 1)
  have h2 : (M + 1) * (rp.resHeightInPixels / (M + 1))
      = M * (rp.resHeightInPixels / (M + 1)) + rp.resHeightInPixels / (M + 1) := by ring
  omega

/-- Claim C2. For every height `H` and worker count `N >= 1` (both `uint32_t`),
the rows assigned to the `N` workers (`WorkerImageBuffer.resHeightInPixels`)
sum to `H`. -/
theorem C2_rows_sum (rp : RenderProperties) (N : Nat) (uninit : Nat → Nat → Nat)
    (hN : 1 ≤ N) (hN32 : N < 2 ^ 32) (hH : rp.resHeightInPixels < 2 ^ 32) :
    ((workerImageBufferVector rp N uninit).map (fun wb => wb.resHeightInPixels)).sum
      = rp.resHeightInPixels := by
  have h : (workerImageBufferVector rp N uninit).map (fun wb => wb.resHeightInPixels)
      = (List.range N).map (workerRows rp N) := by
    simp [workerImageBufferVector, createWorkerImageBuffer, Function.comp_def]
  rw [h, sum_workerRows rp N hN hN32 hH]

/-- Witness of C2: height 10 over 4 workers, 2 + 2 + 2 + 4 = 10. -/
theorem C2_rows_sum_witness :
    (1 ≤ 4 ∧ 4 < 2 ^ 32 ∧ 10 < 2 ^ 32) ∧
    ((workerImageBufferVector ⟨3, 10, 3, 1, 90⟩ 4 (fun _ _ => 0)).map
      (fun wb => wb.resHeightInPixels)).sum = 10 :=
  ⟨by decide,
   C2_rows_sum ⟨3, 10, 3, 1, 90⟩ 4 (fun _ _ => 0) (by decide) (by decide) (by decide)⟩

/-! ## Image assembly -/

/-- The inner loop after `n` iterations, started with the cursor at `p`. -/
theorem copy_range_spec (C : Nat) (hC : C < 2 ^ 32) (wb : WorkerImageBuffer) (n : Nat)
    (s : AssemblyState) (hp : s.finalBufferIndex ≤ C) :
    ((List.range n).foldl (copyByte C wb) s).finalBufferIndex
        = min (s.finalBufferIndex + n) C ∧
    ∀ k, ((List.range n).foldl (copyByte C wb) s).finalImageBuffer k =
      if s.finalBufferIndex ≤ k ∧ k < min (s.finalBufferIndex + n) C then
        wb.buffer.getD (k - s.finalBufferIndex) 0
      else s.finalImageBuffer k := by
  induction n with
  | zero =>
    refine ⟨by simp; omega, fun k => ?_⟩
    have h0 : ¬ (s.finalBufferIndex ≤ k ∧ k < min (s.finalBufferIndex + 0) C) := by omega
    rw [if_neg h0]
    rfl
  | succ n ih =>
    obtain ⟨ihi, ihm⟩ := ih
    rw [List.range_succ, List.foldl_append]
    simp only [List.foldl_cons, List.foldl_nil]
    generalize hs' : (List.range n).foldl (copyByte C wb) s = s' at ihi ihm
    unfold copyByte
    by_cases hlt : s'.finalBufferIndex < C
    · rw [if_pos hlt]
      have hidx : s'.finalBufferIndex = s.finalBufferIndex + n := by omega
      refine ⟨?_, fun k => ?_⟩
      · show wrap32 (s'.finalBufferIndex + 1) = _
        rw [wrap32_of_lt (by omega)]
        omega
      · show Function.update s'.finalImageBuffer s'.finalBufferIndex (wb.buffer.getD n 0) k = _
        by_cases hk : k = s'.finalBufferIndex
        · subst hk
          rw [Function.update_same]
          have h1 : s.finalBufferIndex ≤ s'.finalBufferIndex ∧
              s'.finalBufferIndex < min (s.finalBufferIndex + (n + 1)) C := by omega
          rw [if_pos h1]
          congr 1
          omega
        · rw [Function.update_noteq hk, ihm k]
          by_cases h1 : s.finalBufferIndex ≤ k ∧ k < min (s.finalBufferIndex + n) C
          · have h2 : s.finalBufferIndex ≤ k ∧ k < min (s.finalBufferIndex + (n + 1)) C := by
              omega
            rw [if_pos h1, if_pos h2]
          · have h2 : ¬ (s.finalBufferIndex ≤ k ∧ k < min (s.finalBufferIndex + (n + 1)) C) := by
              omega
            rw [if_neg h1, if_neg h2]
    · rw [if_neg hlt]
      refine ⟨by omega, fun k => ?_⟩
      rw [ihm k]
      by_cases h1 : s.finalBufferIndex ≤ k ∧ k < min (s.finalBufferIndex + n) C
      · have h2 : s.finalBufferIndex ≤ k ∧ k < min (s.finalBufferIndex + (n + 1)) C := by
          omega
        rw [if_pos h1, if_pos h2]
      · have h2 : ¬ (s.finalBufferIndex ≤ k ∧ k < min (s.finalBufferIndex + (n + 1)) C) := by
          omega
        rw [if_neg h1, if_neg h2]

theorem sourceBytes_length (wb : WorkerImageBuffer) :
    (sourceBytes wb).length = wb.sizeInBytes := by
  simp [sourceBytes]

theorem sourceBytes_getD (wb : WorkerImageBuffer) (i : Nat) (hi : i < wb.sizeInBytes) :
    (sourceBytes wb).getD i 0 = wb.buffer.getD i 0 := by
  simp [sourceBytes, List.getD_eq_getElem?_getD, List.getElem?_map, List.getElem?_range hi]

theorem totalSize_cons (wb : WorkerImageBuffer) (bufs : List WorkerImageBuffer) :
    totalSize (wb :: bufs) = wb.sizeInBytes + totalSize bufs := by
  simp [totalSize]

theorem flatMap_sourceBytes_length (bufs : List WorkerImageBuffer) :
    (bufs.flatMap sourceBytes).length = totalSize bufs := by
  induction bufs with
  | nil => simp [totalSize]
  | cons wb rest ih => simp [List.flatMap_cons, totalSize_cons, sourceBytes_length, ih]

/-- Below `INT_MAX` iterations the `int` counter does not overflow: the inner
loop returns the state reached by running the body for every `i`. -/
theorem foldlM_copyStep_of_lt (C : Nat) (wb : WorkerImageBuffer) (l : List Nat)
    (hl : ∀ i ∈ l, i < INT_MAX) :
    ∀ s, l.foldlM (copyStep C wb) s = some (l.foldl (copyByte C wb) s) := by
  induction l with
  | nil => intro s; rfl
  | cons i rest ih =>
    intro s
    have hi : i < INT_MAX := hl i (List.mem_cons_self _ _)
    rw [List.foldlM_cons, List.foldl_cons]
    have hstep : copyStep C wb s i = some (copyByte C wb s i) := by
      unfold copyStep
      rw [if_pos hi]
    rw [hstep]
    exact ih (fun j hj => hl j (List.mem_cons_of_mem _ hj)) _

/-- The inner loop on a buffer whose size an `int` can count. -/
theorem copyWorkerBuffer_of_le (C : Nat) (s : AssemblyState) (wb : WorkerImageBuffer)
    (hsize : wb.sizeInBytes ≤ INT_MAX) :
    copyWorkerBuffer C s wb = some ((List.range wb.sizeInBytes).foldl (copyByte C wb) s) := by
  unfold copyWorkerBuffer
  apply foldlM_copyStep_of_lt
  intro i hi
  have := List.mem_range.mp hi
  omega

/-- A loop that meets an element at which every step fails has no result. -/
theorem foldlM_none_of_mem {σ α : Type} (f : σ → α → Option σ) (a : α)
    (hf : ∀ s, f s a = none) (l : List α) (ha : a ∈ l) :
    ∀ s, l.foldlM f s = none := by
  induction l with
  | nil => simp at ha
  | cons x rest ih =>
    intro s
    rw [List.foldlM_cons]
    rcases List.mem_cons.mp ha with h | h
    · subst h
      rw [hf s]
      rfl
    · cases hx : f s x with
      | none => rfl
      | some s' => exact ih h s'

/-- The inner loop on a buffer of more than `INT_MAX` bytes: the counter
overflows, there is no result. -/
theorem copyWorkerBuffer_of_gt (C : Nat) (s : AssemblyState) (wb : WorkerImageBuffer)
    (hsize : INT_MAX < wb.sizeInBytes) : copyWorkerBuffer C s wb = none := by
  unfold copyWorkerBuffer
  apply foldlM_none_of_mem (copyStep C wb) INT_MAX
  · intro s'
    unfold copyStep
    rw [if_neg (Nat.lt_irrefl _)]
  · exact List.mem_range.mpr hsize

/-- The assembly loop over a vector that holds a buffer of more than `INT_MAX`
bytes has no result. -/
theorem assembleFinalImage_of_gt (C : Nat) (uninit : Nat → Nat)
    (bufs : List WorkerImageBuffer) (wb : WorkerImageBuffer) (hwb : wb ∈ bufs)
    (hsize : INT_MAX < wb.sizeInBytes) : assembleFinalImage C uninit bufs = none := by
  unfold assembleFinalImage
  exact foldlM_none_of_mem (copyWorkerBuffer C) wb
    (fun s => copyWorkerBuffer_of_gt C s wb hsize) bufs hwb _

/-- The outer loop, started from any state whose cursor is within capacity, on
buffers whose sizes an `int` can count. -/
theorem assemble_fold_spec (C : Nat) (hC : C < 2 ^ 32) (bufs : List WorkerImageBuffer)
    (hbound : ∀ wb ∈ bufs, wb.sizeInBytes ≤ INT_MAX) :
    ∀ s : AssemblyState, s.finalBufferIndex ≤ C →
    ∃ s', bufs.foldlM (copyWorkerBuffer C) s = some s' ∧
    s'.finalBufferIndex = min (s.finalBufferIndex + totalSize bufs) C ∧
    ∀ k, s'.finalImageBuffer k =
      if s.finalBufferIndex ≤ k ∧ k < min (s.finalBufferIndex + totalSize bufs) C then
        (bufs.flatMap sourceBytes).getD (k - s.finalBufferIndex) 0
      else s.finalImageBuffer k := by
  induction bufs with
  | nil =>
    intro s hp
    refine ⟨s, rfl, by simp [totalSize]; omega, fun k => ?_⟩
    have h0 : ¬ (s.finalBufferIndex ≤ k ∧ k < min (s.finalBufferIndex + totalSize []) C) := by
      have : totalSize [] = 0 := rfl
      omega
    rw [if_neg h0]
  | cons wb rest ih =>
    intro s hp
    obtain ⟨h1i, h1m⟩ := copy_range_spec C hC wb wb.sizeInBytes s hp
    have hs1 := copyWorkerBuffer_of_le C s wb (hbound wb (List.mem_cons_self _ _))
    generalize (List.range wb.sizeInBytes).foldl (copyByte C wb) s = s1 at h1i h1m hs1
    have hp1 : s1.finalBufferIndex ≤ C := by omega
    obtain ⟨s', hrun, h2i, h2m⟩ :=
      ih (fun b hb => hbound b (List.mem_cons_of_mem _ hb)) s1 hp1
    refine ⟨s', ?_, ?_, ?_⟩
    · rw [List.foldlM_cons, hs1]
      exact hrun
    · rw [totalSize_cons]
      omega
    · intro k
      rw [totalSize_cons, h2m k, h1m k, List.flatMap_cons]
      by_cases hA : s.finalBufferIndex ≤ k ∧
          k < min (s.finalBufferIndex + (wb.sizeInBytes + totalSize rest)) C
      · rw [if_pos hA]
        by_cases hB : k < s.finalBufferIndex + wb.sizeInBytes
        · have h3 : ¬ (s1.finalBufferIndex ≤ k ∧
              k < min (s1.finalBufferIndex + totalSize rest) C) := by omega
          have h4 : s.finalBufferIndex ≤ k ∧
              k < min (s.finalBufferIndex + wb.sizeInBytes) C := by omega
          rw [if_neg h3, if_pos h4,
            List.getD_append _ _ _ _ (by rw [sourceBytes_length]; omega),
            sourceBytes_getD wb _ (by omega)]
        · have h3 : s1.finalBufferIndex ≤ k ∧
              k < min (s1.finalBufferIndex + totalSize rest) C := by omega
          rw [if_pos h3, List.getD_append_right _ _ _ _ (by rw [sourceBytes_length]; omega),
            sourceBytes_length]
          congr 1
          omega
      · rw [if_neg hA]
        have h3 : ¬ (s1.finalBufferIndex ≤ k ∧
            k < min (s1.finalBufferIndex + totalSize rest) C) := by omega
        have h4 : ¬ (s.finalBufferIndex ≤ k ∧
            k < min (s.finalBufferIndex + wb.sizeInBytes) C) := by omega
        rw [if_neg h3, if_neg h4]

/-- Closed form of the whole assembly loop on buffers whose sizes an `int` can
count: it has a result, with the cursor and the content given. -/
theorem assembleFinalImage_spec (C : Nat) (hC : C < 2 ^ 32) (uninit : Nat → Nat)
    (bufs : List WorkerImageBuffer) (hbound : ∀ wb ∈ bufs, wb.sizeInBytes ≤ INT_MAX) :
    ∃ s, assembleFinalImage C uninit bufs = some s ∧
    s.finalBufferIndex = min (totalSize bufs) C ∧
    ∀ k, s.finalImageBuffer k =
      if k < min (totalSize bufs) C then (bufs.flatMap sourceBytes).getD k 0
      else uninit k := by
  obtain ⟨s, hrun, hidx, hmem⟩ :=
    assemble_fold_spec C hC bufs hbound ⟨uninit, 0⟩ (Nat.zero_le _)
  simp only [Nat.zero_add, Nat.zero_le, true_and, Nat.sub_zero] at hidx hmem
  exact ⟨s, hrun, hidx, hmem⟩

theorem startOffset_zero (bufs : List WorkerImageBuffer) : startOffset bufs 0 = 0 := by
  simp [startOffset, totalSize]

theorem startOffset_cons_succ (wb : WorkerImageBuffer) (rest : List WorkerImageBuffer)
    (j : Nat) : startOffset (wb :: rest) (j + 1) = wb.sizeInBytes + startOffset rest j := by
  simp [startOffset, totalSize]

/-- Under worker-size partitioning, offset `startOffset j + off` of the
concatenation is byte `off` of worker `j`. -/
theorem flatMap_getD_startOffset (bufs : List WorkerImageBuffer) :
    ∀ (j : Nat) (wb : WorkerImageBuffer) (off : Nat), bufs[j]? = some wb →
      off < wb.sizeInBytes →
      (bufs.flatMap sourceBytes).getD (startOffset bufs j + off) 0 = wb.buffer.getD off 0 := by
  induction bufs with
  | nil => intro j wb off h; simp at h
  | cons b rest ih =>
    intro j wb off h hoff
    rw [List.flatMap_cons]
    cases j with
    | zero =>
      simp only [List.getElem?_cons_zero, Option.some.injEq] at h
      subst h
      rw [startOffset_zero, Nat.zero_add,
        List.getD_append _ _ _ _ (by rw [sourceBytes_length]; exact hoff),
        sourceBytes_getD b off hoff]
    | succ j =>
      simp only [List.getElem?_cons_succ] at h
      rw [startOffset_cons_succ,
        List.getD_append_right _ _ _ _ (by rw [sourceBytes_length]; omega),
        sourceBytes_length]
      have : b.sizeInBytes + startOffset rest j + off - b.sizeInBytes
          = startOffset rest j + off := by omega
      rw [this]
      exact ih j wb off h hoff

/-- Every offset below the total size lies in the size range of some worker. -/
theorem exists_worker_of_lt_totalSize (bufs : List WorkerImageBuffer) :
    ∀ k, k < totalSize bufs →
      ∃ j wb, bufs[j]? = some wb ∧ startOffset bufs j ≤ k ∧
        k < startOffset bufs j + wb.sizeInBytes := by
  induction bufs with
  | nil => intro k hk; simp [totalSize] at hk
  | cons b rest ih =>
    intro k hk
    rw [totalSize_cons] at hk
    by_cases hb : k < b.sizeInBytes
    · exact ⟨0, b, by simp, by rw [startOffset_zero]; omega, by rw [startOffset_zero]; omega⟩
    · obtain ⟨j, wb, hj, h1, h2⟩ := ih (k - b.sizeInBytes) (by omega)
      refine ⟨j + 1, wb, by simpa using hj, ?_, ?_⟩
      · rw [startOffset_cons_succ]; omega
      · rw [startOffset_cons_succ]; omega

/-- The size ranges of two workers that contain a common offset coincide. -/
theorem worker_range_unique (bufs : List WorkerImageBuffer) :
    ∀ (k j j' : Nat) (wb wb' : WorkerImageBuffer),
      bufs[j]? = some wb → startOffset bufs j ≤ k → k < startOffset bufs j + wb.sizeInBytes →
      bufs[j']? = some wb' → startOffset bufs j' ≤ k →
      k < startOffset bufs j' + wb'.sizeInBytes → j = j' := by
  induction bufs with
  | nil => intro k j j' wb wb' h; simp at h
  | cons b rest ih =>
    intro k j j' wb wb' h h1 h2 h' h1' h2'
    cases j with
    | zero =>
      cases j' with
      | zero => rfl
      | succ j' =>
        simp only [List.getElem?_cons_zero, Option.some.injEq] at h
        subst h
        rw [startOffset_zero] at h2
        rw [startOffset_cons_succ] at h1'
        omega
    | succ j =>
      cases j' with
      | zero =>
        simp only [List.getElem?_cons_zero, Option.some.injEq] at h'
        subst h'
        rw [startOffset_zero] at h2'
        rw [startOffset_cons_succ] at h1
        omega
      | succ j' =>
        simp only [List.getElem?_cons_succ] at h h'
        rw [startOffset_cons_succ] at h1 h2 h1' h2'
        have := ih (k - b.sizeInBytes) j j' wb wb' h (by omega) (by omega) h' (by omega)
          (by omega)
        omega

/-- When every buffer holds exactly its declared number of bytes, the bytes read
by the loop are the buffers themselves. -/
theorem flatMap_sourceBytes_wellFormed (bufs : List WorkerImageBuffer)
    (hwf : ∀ wb ∈ bufs, wb.buffer.length = wb.sizeInBytes) :
    bufs.flatMap sourceBytes = bufs.flatMap (fun wb => wb.buffer) := by
  induction bufs with
  | nil => rfl
  | cons b rest ih =>
    rw [List.flatMap_cons, List.flatMap_cons, ih (fun wb h => hwf wb (List.mem_cons_of_mem _ h))]
    congr 1
    have hb := hwf b (List.mem_cons_self _ _)
    apply List.ext_getElem
    · rw [sourceBytes_length, hb]
    · intro i h1 h2
      simp [sourceBytes, List.getD_eq_getElem?_getD, List.getElem?_eq_getElem h2]

/-- Claim C3, as amended. For every list of worker buffers whose sizes an `int`
can count (each at most `INT_MAX`), every declared capacity `C` (a `uint32_t`)
and every offset `k < min (sum of sizes) C`: the assembly loop has a result; the
byte of the final buffer at `k` is the `k`-th byte of the concatenation of the
bytes read from the workers in index order; exactly one worker `j` has a size
range containing `k`; and the byte is byte `k - startOffset j` of that worker's
buffer. When the buffers hold exactly their declared sizes the concatenation is
that of the buffers themselves. -/
theorem C3_assembly_content (bufs : List WorkerImageBuffer) (C : Nat) (uninit : Nat → Nat)
    (k : Nat) (hC : C < 2 ^ 32) (hbound : ∀ wb ∈ bufs, wb.sizeInBytes ≤ INT_MAX)
    (hk : k < min (totalSize bufs) C) :
    ∃ s, assembleFinalImage C uninit bufs = some s ∧
    s.finalImageBuffer k = (bufs.flatMap sourceBytes).getD k 0 ∧
    (∃! j, ∃ wb, bufs[j]? = some wb ∧ startOffset bufs j ≤ k ∧
        k < startOffset bufs j + wb.sizeInBytes) ∧
    (∀ j wb, bufs[j]? = some wb → startOffset bufs j ≤ k →
        k < startOffset bufs j + wb.sizeInBytes →
        s.finalImageBuffer k = wb.buffer.getD (k - startOffset bufs j) 0) ∧
    ((∀ wb ∈ bufs, wb.buffer.length = wb.sizeInBytes) →
        s.finalImageBuffer k = (bufs.flatMap (fun wb => wb.buffer)).getD k 0) := by
  obtain ⟨s, hrun, _, hall⟩ := assembleFinalImage_spec C hC uninit bufs hbound
  have hmem := hall k
  rw [if_pos hk] at hmem
  refine ⟨s, hrun, hmem, ?_, ?_, ?_⟩
  · obtain ⟨j, wb, hj, h1, h2⟩ := exists_worker_of_lt_totalSize bufs k (by omega)
    refine ⟨j, ⟨wb, hj, h1, h2⟩, ?_⟩
    rintro j' ⟨wb', hj', h1', h2'⟩
    exact worker_range_unique bufs k j' j wb' wb hj' h1' h2' hj h1 h2
  · intro j wb hj h1 h2
    rw [hmem]
    have := flatMap_getD_startOffset bufs j wb (k - startOffset bufs j) hj (by omega)
    rw [← this]
    congr 1
    omega
  · intro hwf
    rw [hmem, flatMap_sourceBytes_wellFormed bufs hwf]

/-- Claim C4, as amended. For every list of worker buffers whose sizes an `int`
can count (each at most `INT_MAX`) and every declared capacity `C` (a
`uint32_t`), the assembly loop has a result, it ends with `finalBufferIndex`
equal to `min (sum of sizes) C`, and no offset `>= C` of the final buffer is
changed: bytes beyond the capacity are dropped. -/
theorem C4_assembly_length (bufs : List WorkerImageBuffer) (C : Nat) (uninit : Nat → Nat)
    (hC : C < 2 ^ 32) (hbound : ∀ wb ∈ bufs, wb.sizeInBytes ≤ INT_MAX) :
    ∃ s, assembleFinalImage C uninit bufs = some s ∧
    s.finalBufferIndex = min (totalSize bufs) C ∧
    ∀ k, C ≤ k → s.finalImageBuffer k = uninit k := by
  obtain ⟨s, hrun, hidx, hmem⟩ := assembleFinalImage_spec C hC uninit bufs hbound
  refine ⟨s, hrun, hidx, fun k hk => ?_⟩
  rw [hmem k, if_neg (by omega)]

/-- Witness of C3: buffers of 2 and 3 bytes into a capacity of 4; offset 3 holds
byte 1 of the second worker. -/
theorem C3_assembly_content_witness :
    (4 < 2 ^ 32 ∧
      (∀ wb ∈ [(⟨2, 1, 2, [10, 11]⟩ : WorkerImageBuffer), ⟨3, 1, 3, [20, 21, 22]⟩],
        wb.sizeInBytes ≤ INT_MAX) ∧
      3 < min (totalSize [⟨2, 1, 2, [10, 11]⟩, ⟨3, 1, 3, [20, 21, 22]⟩]) 4) ∧
    ∃ s, assembleFinalImage 4 (fun _ => 0)
        [⟨2, 1, 2, [10, 11]⟩, ⟨3, 1, 3, [20, 21, 22]⟩] = some s ∧
      s.finalImageBuffer 3
        = ([⟨2, 1, 2, [10, 11]⟩, ⟨3, 1, 3, [20, 21, 22]⟩].flatMap sourceBytes).getD 3 0 :=
  ⟨by decide,
   (C3_assembly_content [⟨2, 1, 2, [10, 11]⟩, ⟨3, 1, 3, [20, 21, 22]⟩] 4 (fun _ => 0) 3
      (by decide) (by decide) (by decide)).imp (fun _ h => ⟨h.1, h.2.1⟩)⟩

/-- Witness of C4: buffers of 2 and 3 bytes into a capacity of 4; four bytes are
copied and offset 4 keeps its old content. -/
theorem C4_assembly_length_witness :
    (4 < 2 ^ 32 ∧
      ∀ wb ∈ [(⟨2, 1, 2, [10, 11]⟩ : WorkerImageBuffer), ⟨3, 1, 3, [20, 21, 22]⟩],
        wb.sizeInBytes ≤ INT_MAX) ∧
    ∃ s, assembleFinalImage 4 (fun _ => 7)
        [⟨2, 1, 2, [10, 11]⟩, ⟨3, 1, 3, [20, 21, 22]⟩] = some s ∧
      s.finalBufferIndex = 4 ∧ s.finalImageBuffer 4 = 7 :=
  ⟨by decide,
   (C4_assembly_length [⟨2, 1, 2, [10, 11]⟩, ⟨3, 1, 3, [20, 21, 22]⟩] 4 (fun _ => 7)
      (by decide) (by decide)).imp (fun _ h => ⟨h.1, h.2.1, h.2.2 4 (Nat.le_refl 4)⟩)⟩

/-- Counterexample to C3 as stated: one worker buffer of `2 ^ 31 + 5` bytes and
a capacity of the same size. Offset `2 ^ 31` is below both, but the `int`
counter of the copy loop overflows before it gets there: the assembly has no
defined result, so no final byte at that offset. -/
theorem C3_counterexample :
    (2147483653 < 2 ^ 32 ∧
      2147483648 < min (totalSize
        [⟨2147483653, 2147483653, 1, List.replicate 2147483653 7⟩]) 2147483653) ∧
    assembleFinalImage 2147483653 (fun _ => 0)
      [⟨2147483653, 2147483653, 1, List.replicate 2147483653 7⟩] = none := by
  refine ⟨⟨by decide, ?_⟩, ?_⟩
  · have h : totalSize [⟨2147483653, 2147483653, 1, List.replicate 2147483653 7⟩]
        = 2147483653 := rfl
    rw [h]
    decide
  · exact assembleFinalImage_of_gt _ _ _
      ⟨2147483653, 2147483653, 1, List.replicate 2147483653 7⟩
      (List.mem_singleton.mpr rfl) (by decide)

/-- Counterexample to C4 as stated: one worker buffer of `2 ^ 31 + 5` bytes into
a capacity of 16 bytes. The claim gives 16 bytes copied; the `int` counter of
the copy loop overflows while the remaining source bytes are skipped, so the
assembly has no defined result and no final `finalBufferIndex`. -/
theorem C4_counterexample :
    (16 < 2 ^ 32 ∧
      min (totalSize [⟨2147483653, 2147483653, 1, List.replicate 2147483653 7⟩]) 16 = 16) ∧
    assembleFinalImage 16 (fun _ => 0)
      [⟨2147483653, 2147483653, 1, List.replicate 2147483653 7⟩] = none := by
  refine ⟨⟨by decide, ?_⟩, ?_⟩
  · have h : totalSize [⟨2147483653, 2147483653, 1, List.replicate 2147483653 7⟩]
        = 2147483653 := rfl
    rw [h]
    decide
  · exact assembleFinalImage_of_gt _ _ _
      ⟨2147483653, 2147483653, 1, List.replicate 2147483653 7⟩
      (List.mem_singleton.mpr rfl) (by decide)

/-! ## The render path produces a buffer of the requested size -/

theorem setBufferProperties_fields (rp : RenderProperties) (bpp : Nat) :
    (setBufferProperties rp bpp).resWidthInPixels = rp.resWidthInPixels ∧
    (setBufferProperties rp bpp).resHeightInPixels = rp.resHeightInPixels ∧
    (setBufferProperties rp bpp).bytesPerPixel = bpp ∧
    (setBufferProperties rp bpp).finalImageBufferSizeInBytes
      = wrap32 (wrap32 (rp.resWidthInPixels * rp.resHeightInPixels) * bpp) :=
  ⟨rfl, rfl, rfl, rfl⟩

/-- Two `uint32_t` multiplications in a row do not wrap when the full product
fits 32 bits. -/
theorem wrap32_mul_mul {a b c : Nat} (h : a * b * c < 2 ^ 32) :
    wrap32 (wrap32 (a * b) * c) = a * b * c := by
  unfold wrap32
  rw [Nat.mod_mul_mod]
  exact Nat.mod_eq_of_lt h

/-- Without wrap-around, the worker buffer sizes add up to the rows' sum times
the width times the pixel size. -/
theorem totalSize_workerImageBufferVector (rp : RenderProperties) (N : Nat)
    (uninit : Nat → Nat → Nat)
    (hsmall : ∀ i, i < N →
      workerRows rp N i * rp.resWidthInPixels * rp.bytesPerPixel < 2 ^ 32) :
    totalSize (workerImageBufferVector rp N uninit)
      = ((List.range N).map (workerRows rp N)).sum * rp.resWidthInPixels
          * rp.bytesPerPixel := by
  have h : (workerImageBufferVector rp N uninit).map (fun wb => wb.sizeInBytes)
      = (List.range N).map
          (fun i => workerRows rp N i * (rp.resWidthInPixels * rp.bytesPerPixel)) := by
    unfold workerImageBufferVector
    rw [List.map_map]
    apply List.map_congr_left
    intro i hi
    have := hsmall i (List.mem_range.mp hi)
    simp only [Function.comp, createWorkerImageBuffer]
    rw [wrap32_mul_mul this, Nat.mul_assoc]
  unfold totalSize
  rw [h, List.sum_map_mul_right, Nat.mul_assoc]

/-- Claim C5, as amended. For every width `W`, height `H`, pixel size `b` and
worker count `N >= 1` with `W * H * b < 2 ^ 32`, the worker buffer sizes
computed by `main` sum to `finalImageBufferSizeInBytes = W * H * b`; and when
every worker buffer has a size an `int` can count (at most `INT_MAX`), the
assembly loop has a result and ends with `finalBufferIndex` equal to that size,
so that every byte of the final buffer is written with the corresponding source
byte and none is dropped. -/
theorem C5_requested_size (rp : RenderProperties) (bpp N : Nat)
    (uninit : Nat → Nat → Nat) (finalUninit : Nat → Nat)
    (hN : 1 ≤ N) (hN32 : N < 2 ^ 32) (hH : rp.resHeightInPixels < 2 ^ 32)
    (hsize : rp.resWidthInPixels * rp.resHeightInPixels * bpp < 2 ^ 32) :
    (setBufferProperties rp bpp).finalImageBufferSizeInBytes
      = rp.resWidthInPixels * rp.resHeightInPixels * bpp ∧
    totalSize (workerImageBufferVector (setBufferProperties rp bpp) N uninit)
      = (setBufferProperties rp bpp).finalImageBufferSizeInBytes ∧
    ((∀ wb ∈ workerImageBufferVector (setBufferProperties rp bpp) N uninit,
        wb.sizeInBytes ≤ INT_MAX) →
      ∃ s, assembleFinalImage (setBufferProperties rp bpp).finalImageBufferSizeInBytes
          finalUninit (workerImageBufferVector (setBufferProperties rp bpp) N uninit)
          = some s ∧
        s.finalBufferIndex = (setBufferProperties rp bpp).finalImageBufferSizeInBytes ∧
        ∀ k, k < (setBufferProperties rp bpp).finalImageBufferSizeInBytes →
          s.finalImageBuffer k
            = ((workerImageBufferVector (setBufferProperties rp bpp) N uninit).flatMap
                sourceBytes).getD k 0) := by
  obtain ⟨hw, hh, hb, hf⟩ := setBufferProperties_fields rp bpp
  generalize setBufferProperties rp bpp = rp' at hw hh hb hf
  have hfinal : rp'.finalImageBufferSizeInBytes
      = rp.resWidthInPixels * rp.resHeightInPixels * bpp := by
    rw [hf, wrap32_mul_mul hsize]
  have hH' : rp'.resHeightInPixels < 2 ^ 32 := by rw [hh]; exact hH
  have hrows : ∀ i, workerRows rp' N i ≤ rp.resHeightInPixels := by
    intro i
    rw [workerRows_eq rp' N i hN hN32 hH', hh]
    have h1 := Nat.div_add_mod rp.resHeightInPixels N
    have h2 : rp.resHeightInPixels / N ≤ N * (rp.resHeightInPixels / N) :=
      Nat.le_mul_of_pos_left _ hN
    split <;> omega
  have hsmall : ∀ i, i < N →
      workerRows rp' N i * rp'.resWidthInPixels * rp'.bytesPerPixel < 2 ^ 32 := by
    intro i _
    rw [hw, hb]
    have h1 : workerRows rp' N i * rp.resWidthInPixels * bpp
        ≤ rp.resHeightInPixels * rp.resWidthInPixels * bpp :=
      Nat.mul_le_mul_right _ (Nat.mul_le_mul_right _ (hrows i))
    have h2 : rp.resHeightInPixels * rp.resWidthInPixels * bpp
        = rp.resWidthInPixels * rp.resHeightInPixels * bpp := by ring
    omega
  have htotal : totalSize (workerImageBufferVector rp' N uninit)
      = rp'.finalImageBufferSizeInBytes := by
    rw [totalSize_workerImageBufferVector rp' N uninit hsmall,
      sum_workerRows rp' N hN hN32 hH', hfinal, hw, hh, hb]
    ring
  have hC : rp'.finalImageBufferSizeInBytes < 2 ^ 32 := by rw [hfinal]; exact hsize
  refine ⟨hfinal, htotal, ?_⟩
  intro hbound
  obtain ⟨s, hrun, hidx, hmem⟩ := assembleFinalImage_spec rp'.finalImageBufferSizeInBytes hC
    finalUninit (workerImageBufferVector rp' N uninit) hbound
  refine ⟨s, hrun, ?_, ?_⟩
  · rw [hidx, htotal, Nat.min_self]
  · intro k hk
    rw [hmem k, if_pos (by rw [htotal, Nat.min_self]; exact hk)]

/-- Witness of C5: a 2 x 5 image of 3-byte pixels over 2 workers, buffers of 12
and 18 bytes; the assembly copies all 30 bytes. -/
theorem C5_requested_size_witness :
    (1 ≤ 2 ∧ 2 < 2 ^ 32 ∧ 5 < 2 ^ 32 ∧ 2 * 5 * 3 < 2 ^ 32 ∧
      ∀ wb ∈ workerImageBufferVector (setBufferProperties ⟨2, 5, 0, 1, 0⟩ 3) 2
        (fun _ _ => 0), wb.sizeInBytes ≤ INT_MAX) ∧
    (setBufferProperties ⟨2, 5, 0, 1, 0⟩ 3).finalImageBufferSizeInBytes = 2 * 5 * 3 ∧
    totalSize (workerImageBufferVector (setBufferProperties ⟨2, 5, 0, 1, 0⟩ 3) 2
        (fun _ _ => 0))
      = (setBufferProperties ⟨2, 5, 0, 1, 0⟩ 3).finalImageBufferSizeInBytes ∧
    ∃ s, assembleFinalImage (setBufferProperties ⟨2, 5, 0, 1, 0⟩ 3).finalImageBufferSizeInBytes
        (fun _ => 0)
        (workerImageBufferVector (setBufferProperties ⟨2, 5, 0, 1, 0⟩ 3) 2 (fun _ _ => 0))
        = some s ∧
      s.finalBufferIndex = (setBufferProperties ⟨2, 5, 0, 1, 0⟩ 3).finalImageBufferSizeInBytes :=
  ⟨by decide,
   (C5_requested_size ⟨2, 5, 0, 1, 0⟩ 3 2 (fun _ _ => 0) (fun _ => 0) (by decide)
      (by decide) (by decide) (by decide)).1,
   (C5_requested_size ⟨2, 5, 0, 1, 0⟩ 3 2 (fun _ _ => 0) (fun _ => 0) (by decide)
      (by decide) (by decide) (by decide)).2.1,
   ((C5_requested_size ⟨2, 5, 0, 1, 0⟩ 3 2 (fun _ _ => 0) (fun _ => 0) (by decide)
      (by decide) (by decide) (by decide)).2.2 (by decide)).imp (fun _ h => ⟨h.1, h.2.1⟩)⟩

/-- Counterexample to C5 as stated: one worker, a 30000 x 30000 image of 3-byte
pixels. `W * H * b = 2700000000` is below `2 ^ 32`, and the single worker buffer
has that size, above `INT_MAX`: the `int` counter of the copy loop overflows and
the assembly has no defined result. -/
theorem C5_counterexample :
    (1 ≤ 1 ∧ 1 < 2 ^ 32 ∧ 30000 < 2 ^ 32 ∧ 30000 * 30000 * 3 < 2 ^ 32) ∧
    (workerImageBufferVector (setBufferProperties ⟨30000, 30000, 0, 1, 0⟩ 3) 1
        (fun _ _ => 0)).map (fun wb => wb.sizeInBytes) = [2700000000] ∧
    assembleFinalImage
        (setBufferProperties ⟨30000, 30000, 0, 1, 0⟩ 3).finalImageBufferSizeInBytes
        (fun _ => 0)
        (workerImageBufferVector (setBufferProperties ⟨30000, 30000, 0, 1, 0⟩ 3) 1
          (fun _ _ => 0)) = none := by
  refine ⟨by decide, by decide, ?_⟩
  exact assembleFinalImage_of_gt _ _ _
    (createWorkerImageBuffer (setBufferProperties ⟨30000, 30000, 0, 1, 0⟩ 3) 1
      (fun _ _ => 0) 0)
    (List.getElem?_mem (workerImageBufferVector_getElem? _ 1 _ 0 (by decide)))
    (by decide)

/-! ## Channel conversion -/

/-- The cap of line 594 sees only the 16-bit intermediate: for every value `v`
of the intermediate the channel written is `min v 255`. -/
theorem capChannel_eq_min (v : Nat) (hv : v < 65536) : capChannel v = min v 255 := by
  unfold capChannel
  split
  · omega
  · have : v % 2 ^ 8 = v := Nat.mod_eq_of_lt (by omega)
    omega

/-- Below 65536 the conversion to `uint16_t` keeps the value, and the channel
written is `min n 255`. -/
theorem channelByte_of_lt (n : Nat) (h : n < 65536) : channelByte n = min n 255 := by
  unfold channelByte toUint16
  have h16 : n % 2 ^ 16 = n := Nat.mod_eq_of_lt (by omega)
  rw [h16]
  exact capChannel_eq_min n h

/-- Claim C6, at the failing input. For a scaled channel value with integer part
`65536` the 16-bit intermediate is `0` and the channel written is `0`; for
`65636` it is `100`. The claim gives `min n 255 = 255` for both: the value wraps
instead of saturating. -/
theorem C6_channel_wraps :
    toUint16 65536 = 0 ∧ channelByte 65536 = 0 ∧ channelByte 65536 ≠ min 65536 255 ∧
    toUint16 65636 = 100 ∧ channelByte 65636 = 100 ∧ channelByte 65636 ≠ min 65636 255 := by
  decide

/-! ## Scene configuration -/

theorem promptField_empty (extract : List Char → Option Nat × List Char)
    (minimum current : Nat) (input : List Char) (h : input.head? = some '\n') :
    (promptField extract minimum current input).1 = current := by
  unfold promptField
  rw [if_pos h]

theorem promptField_fail (extract : List Char → Option Nat × List Char)
    (minimum current : Nat) (input : List Char) (h : input.head? ≠ some '\n')
    (hx : (extract input).1 = none) :
    (promptField extract minimum current input).1 = minimum := by
  unfold promptField
  rw [if_neg h]
  rcases hr : extract input with ⟨r, rest⟩
  rw [hr] at hx
  simp only at hx
  subst hx
  rfl

theorem promptField_parsed (extract : List Char → Option Nat × List Char)
    (minimum current : Nat) (input : List Char) (x : Nat) (h : input.head? ≠ some '\n')
    (hx : (extract input).1 = some x) :
    (promptField extract minimum current input).1 = max x minimum := by
  unfold promptField
  rw [if_neg h]
  rcases hr : extract input with ⟨r, rest⟩
  rw [hr] at hx
  simp only at hx
  subst hx
  show (if x < minimum then minimum else x) = max x minimum
  split <;> omega

/-- The three fields after `configureScene` with prompting, each as the result
of its own prompt on the input that prompt sees. -/
theorem configureScene_fields (extract : List Char → Option Nat × List Char)
    (rp : RenderProperties) (input : List Char) :
    (configureScene 0 extract rp input).1.resWidthInPixels
      = (promptField extract DEFAULT_RENDER_WIDTH DEFAULT_RENDER_WIDTH input).1 ∧
    (configureScene 0 extract rp input).1.resHeightInPixels
      = (promptField extract DEFAULT_RENDER_HEIGHT DEFAULT_RENDER_HEIGHT
          (cinIgnore INT_MAX (promptWidth extract (setDefaults rp, input)).2)).1 ∧
    (configureScene 0 extract rp input).1.antiAliasingSamplesPerPixel
      = (promptField extract DEFAULT_RENDER_AA DEFAULT_RENDER_AA
          (cinIgnore INT_MAX
            (promptHeight extract (promptWidth extract (setDefaults rp, input))).2)).1 :=
  ⟨rfl, rfl, rfl⟩

/-- Claim C7. In the prompting branch of `configureScene`
(`BYPASS_SCENE_CONFIG == 0`), for each of render width, render height and
sample count, with minimum = default = 600, 600 and 1: on the input its prompt
sees, an empty line or a failed extraction gives exactly the default, and a
number `x` read successfully gives `max x minimum`. -/
theorem C7_configuration_clamped (extract : List Char → Option Nat × List Char)
    (rp : RenderProperties) (input : List Char) :
    (DEFAULT_RENDER_WIDTH = 600 ∧ DEFAULT_RENDER_HEIGHT = 600 ∧ DEFAULT_RENDER_AA = 1) ∧
    ((input.head? = some '\n' →
        (configureScene 0 extract rp input).1.resWidthInPixels = 600) ∧
     (input.head? ≠ some '\n' → (extract input).1 = none →
        (configureScene 0 extract rp input).1.resWidthInPixels = 600) ∧
     (∀ x, input.head? ≠ some '\n' → (extract input).1 = some x →
        (configureScene 0 extract rp input).1.resWidthInPixels = max x 600)) ∧
    (∀ inH, inH = cinIgnore INT_MAX (promptWidth extract (setDefaults rp, input)).2 →
     (inH.head? = some '\n' →
        (configureScene 0 extract rp input).1.resHeightInPixels = 600) ∧
     (inH.head? ≠ some '\n' → (extract inH).1 = none →
        (configureScene 0 extract rp input).1.resHeightInPixels = 600) ∧
     (∀ x, inH.head? ≠ some '\n' → (extract inH).1 = some x →
        (configureScene 0 extract rp input).1.resHeightInPixels = max x 600)) ∧
    (∀ inA, inA = cinIgnore INT_MAX
        (promptHeight extract (promptWidth extract (setDefaults rp, input))).2 →
     (inA.head? = some '\n' →
        (configureScene 0 extract rp input).1.antiAliasingSamplesPerPixel = 1) ∧
     (inA.head? ≠ some '\n' → (extract inA).1 = none →
        (configureScene 0 extract rp input).1.antiAliasingSamplesPerPixel = 1) ∧
     (∀ x, inA.head? ≠ some '\n' → (extract inA).1 = some x →
        (configureScene 0 extract rp input).1.antiAliasingSamplesPerPixel = max x 1)) := by
  obtain ⟨hw, hh, ha⟩ := configureScene_fields extract rp input
  refine ⟨⟨rfl, rfl, rfl⟩, ⟨?_, ?_, ?_⟩, ?_, ?_⟩
  · intro h
    rw [hw, promptField_empty extract _ _ input h]; rfl
  · intro h hx
    rw [hw, promptField_fail extract _ _ input h hx]; rfl
  · intro x h hx
    rw [hw, promptField_parsed extract _ _ input x h hx]; rfl
  · intro inH hin
    subst hin
    refine ⟨?_, ?_, ?_⟩
    · intro h
      rw [hh, promptField_empty extract _ _ _ h]; rfl
    · intro h hx
      rw [hh, promptField_fail extract _ _ _ h hx]; rfl
    · intro x h hx
      rw [hh, promptField_parsed extract _ _ _ x h hx]; rfl
  · intro inA hin
    subst hin
    refine ⟨?_, ?_, ?_⟩
    · intro h
      rw [ha, promptField_empty extract _ _ _ h]; rfl
    · intro h hx
      rw [ha, promptField_fail extract _ _ _ h hx]; rfl
    · intro x h hx
      rw [ha, promptField_parsed extract _ _ _ x h hx]; rfl

/-- Witness of C7: on the input "80", "1000", empty line, the width 80 is raised
to 600, the height 1000 is kept and the sample count is the default 1. -/
theorem C7_configuration_clamped_witness :
    (configureScene 0 readDecimal ⟨0, 0, 0, 0, 0⟩
        ['8', '0', '\n', '1', '0', '0', '0', '\n', '\n']).1.resWidthInPixels = max 80 600 ∧
    (configureScene 0 readDecimal ⟨0, 0, 0, 0, 0⟩
        ['8', '0', '\n', '1', '0', '0', '0', '\n', '\n']).1.resHeightInPixels = max 1000 600 ∧
    (configureScene 0 readDecimal ⟨0, 0, 0, 0, 0⟩
        ['8', '0', '\n', '1', '0', '0', '0', '\n', '\n']).1.antiAliasingSamplesPerPixel = 1 :=
  ⟨(C7_configuration_clamped readDecimal ⟨0, 0, 0, 0, 0⟩
      ['8', '0', '\n', '1', '0', '0', '0', '\n', '\n']).2.1.2.2 80 (by decide) (by decide),
   ((C7_configuration_clamped readDecimal ⟨0, 0, 0, 0, 0⟩
      ['8', '0', '\n', '1', '0', '0', '0', '\n', '\n']).2.2.1
        ['1', '0', '0', '0', '\n', '\n'] (by decide)).2.2 1000 (by decide) (by decide),
   ((C7_configuration_clamped readDecimal ⟨0, 0, 0, 0, 0⟩
      ['8', '0', '\n', '1', '0', '0', '0', '\n', '\n']).2.2.2
        ['\n'] (by decide)).1 (by decide)⟩

/-! ## Worker lifecycle -/

theorem getElem?_snoc_eq_some {t : List Event} {e x : Event} {n : Nat}
    (h : (t ++ [e])[n]? = some x) : t[n]? = some x ∨ (n = t.length ∧ e = x) := by
  rw [List.getElem?_append] at h
  split at h
  · exact Or.inl h
  · rename_i hn
    right
    have hn' : n - t.length = 0 := by
      by_contra hne
      have : ([e] : List Event)[n - t.length]? = none :=
        List.getElem?_eq_none (by simp; omega)
      rw [this] at h
      exact Option.noConfusion h
    rw [hn'] at h
    simp at h
    exact ⟨by omega, h⟩

theorem getElem?_snoc_of_some {t : List Event} {e x : Event} {n : Nat}
    (h : t[n]? = some x) : (t ++ [e])[n]? = some x := by
  have hn : n < t.length := (List.getElem?_eq_some.mp h).1
  rw [List.getElem?_append_left hn]
  exact h

theorem lt_length_of_getElem? {t : List Event} {x : Event} {n : Nat}
    (h : t[n]? = some x) : n < t.length :=
  (List.getElem?_eq_some.mp h).1

theorem exists_lt_of_mem {t : List Event} {x : Event} (h : x ∈ t) :
    ∃ m, m < t.length ∧ t[m]? = some x := by
  obtain ⟨m, hm⟩ := List.mem_iff_getElem?.mp h
  exact ⟨m, lt_length_of_getElem? hm, hm⟩

/-- Appending an event keeps `Precedes`, provided that when the event is `b` an
`a` is already in the trace. -/
theorem precedes_snoc {t : List Event} {a b e : Event} (h : Precedes t a b)
    (he : e = b → a ∈ t) : Precedes (t ++ [e]) a b := by
  intro n hn
  rcases getElem?_snoc_eq_some hn with h1 | ⟨h1, h2⟩
  · obtain ⟨m, hm, hx⟩ := h n h1
    exact ⟨m, hm, getElem?_snoc_of_some hx⟩
  · obtain ⟨m, hm, hx⟩ := exists_lt_of_mem (he h2)
    exact ⟨m, by omega, getElem?_snoc_of_some hx⟩

/-- Appending an event keeps `NeverAfter`, provided that when the event is `b` no
`a` is in the trace yet. -/
theorem neverAfter_snoc {t : List Event} {a b e : Event} (h : NeverAfter t a b)
    (hab : a ≠ b) (he : e = b → a ∉ t) : NeverAfter (t ++ [e]) a b := by
  intro n m hn hm
  rcases getElem?_snoc_eq_some hn with h1 | ⟨h1, h2⟩
  · rcases getElem?_snoc_eq_some hm with h3 | ⟨h3, _⟩
    · exact h n m h1 h3
    · have := lt_length_of_getElem? h1
      omega
  · rcases getElem?_snoc_eq_some hm with h3 | ⟨_, h4⟩
    · exact absurd (List.mem_iff_getElem?.mpr ⟨m, h3⟩) (he h2)
    · exact absurd (h4.symm.trans h2) hab

theorem mem_snoc_of_mem {t : List Event} {x e : Event} (h : x ∈ t) : x ∈ t ++ [e] :=
  List.mem_append_left _ h

theorem mem_snoc_self {t : List Event} {e : Event} : e ∈ t ++ [e] :=
  List.mem_append_right _ (List.mem_singleton.mpr rfl)

theorem mem_of_mem_snoc {t : List Event} {x e : Event} (h : x ∈ t ++ [e]) (hne : x ≠ e) :
    x ∈ t := by
  rcases List.mem_append.mp h with h1 | h1
  · exact h1
  · exact absurd (List.mem_singleton.mp h1) hne

/-- The invariant holds initially. -/
theorem inv_initial (cfg : Setup) : Inv cfg initialSystem where
  readAfterObs := fun i n h => by simp [initialSystem] at h
  exitAfterObs := fun k j _ n h => by simp [initialSystem] at h
  noWriteAfterDone := fun i p n m h => by simp [initialSystem] at h
  obsAfterPub := fun i n h => by simp [initialSystem] at h
  startGate := fun _ i n h => by simp [initialSystem] at h
  observed := fun j h => by simp [initialSystem, mainObserved] at h
  doneFlag := fun i w h => by simp [initialSystem] at h
  pubPc := fun i w h => by simp [initialSystem] at h
  pubLt := fun i h => by simp [initialSystem] at h
  startFlag := fun _ i w h => by simp [initialSystem] at h

/-- A step that only moves `main` keeps the invariant when the new control
point observes no more than the trace records. -/
theorem inv_of_pc (cfg : Setup) (s : System) (h : Inv cfg s) (pc : MainPc)
    (hobs : ∀ j, mainObserved pc s.workers.length j → Event.doneObserved j ∈ s.trace) :
    Inv cfg { s with mainPc := pc } where
  readAfterObs := h.readAfterObs
  exitAfterObs := h.exitAfterObs
  noWriteAfterDone := h.noWriteAfterDone
  obsAfterPub := h.obsAfterPub
  startGate := h.startGate
  observed := hobs
  doneFlag := h.doneFlag
  pubPc := h.pubPc
  pubLt := h.pubLt
  startFlag := h.startFlag

/-- A step of `main` that appends an event and leaves the workers as they are. -/
theorem inv_of_main_event (cfg : Setup) (s : System) (h : Inv cfg s) (pc : MainPc)
    (e : Event)
    (hobs : ∀ j, mainObserved pc s.workers.length j → Event.doneObserved j ∈ s.trace ++ [e])
    (hread : ∀ j, e = Event.bufferRead j → Event.doneObserved j ∈ s.trace)
    (hexit : ∀ k, e = Event.exitSet k → ∀ j, j ≤ k → Event.doneObserved j ∈ s.trace)
    (hwrite : ∀ j p, e ≠ Event.bufferWrite j p)
    (hobsE : ∀ j, e = Event.doneObserved j → Event.donePublished j ∈ s.trace)
    (hgate : ∀ j, e ≠ Event.startObserved j)
    (hpub : ∀ j, e ≠ Event.donePublished j) :
    Inv cfg { s with mainPc := pc, trace := s.trace ++ [e] } where
  readAfterObs := fun i => precedes_snoc (h.readAfterObs i) (hread i)
  exitAfterObs := fun k j hjk => precedes_snoc (h.exitAfterObs k j hjk)
    (fun he => hexit k he j hjk)
  noWriteAfterDone := fun i p => neverAfter_snoc (h.noWriteAfterDone i p)
    (by simp) (fun he => absurd he (hwrite i p))
  obsAfterPub := fun i => precedes_snoc (h.obsAfterPub i) (hobsE i)
  startGate := fun hu i => precedes_snoc (h.startGate hu i) (fun he => absurd he (hgate i))
  observed := hobs
  doneFlag := fun i w hw hd => mem_snoc_of_mem (h.doneFlag i w hw hd)
  pubPc := fun i w hw hp => h.pubPc i w hw (mem_of_mem_snoc hp (fun he => hpub i he.symm))
  pubLt := fun i hp => h.pubLt i (mem_of_mem_snoc hp (fun he => hpub i he.symm))
  startFlag := fun hu i w hw hs => mem_snoc_of_mem (h.startFlag hu i w hw hs)

theorem getElem?_set_cases {ws : List Worker} {i j : Nat} {w' w1 : Worker}
    (h : (ws.set i w')[j]? = some w1) : (j = i ∧ w1 = w') ∨ (j ≠ i ∧ ws[j]? = some w1) := by
  rw [List.getElem?_set] at h
  split at h
  · rename_i hij
    split at h
    · exact Or.inl ⟨hij.symm, (Option.some.inj h).symm⟩
    · exact Option.noConfusion h
  · rename_i hij
    exact Or.inr ⟨fun hji => hij hji.symm, h⟩

/-- A step that replaces worker `i` and appends an event. -/
theorem inv_of_update (cfg : Setup) (s : System) (h : Inv cfg s) (pc : MainPc)
    (i : Nat) (w w' : Worker) (e : Event)
    (hw : s.workers[i]? = some w)
    (hdone : w'.thread.workIsDone = true → Event.donePublished i ∈ s.trace ++ [e])
    (hpc : Event.donePublished i ∈ s.trace ++ [e] →
      w'.pc = WorkerPc.waitExit ∨ w'.pc = WorkerPc.returned)
    (hstart : (∀ k, cfg.uninitStart k = false) → w'.thread.start = true →
      Event.startSet i ∈ s.trace ++ [e])
    (hpub : ∀ j, e = Event.donePublished j → j = i)
    (hobs : ∀ j, mainObserved pc s.workers.length j → Event.doneObserved j ∈ s.trace ++ [e])
    (hread : ∀ j, e ≠ Event.bufferRead j)
    (hexit : ∀ k, e = Event.exitSet k → ∀ j, j ≤ k → Event.doneObserved j ∈ s.trace)
    (hwrite : ∀ j p, e = Event.bufferWrite j p → Event.donePublished j ∉ s.trace)
    (hobsE : ∀ j, e ≠ Event.doneObserved j)
    (hgate : (∀ k, cfg.uninitStart k = false) →
      ∀ j, e = Event.startObserved j → Event.startSet j ∈ s.trace) :
    Inv cfg { mainPc := pc, workers := s.workers.set i w', trace := s.trace ++ [e] } where
  readAfterObs := fun j => precedes_snoc (h.readAfterObs j) (fun he => absurd he (hread j))
  exitAfterObs := fun k j hjk => precedes_snoc (h.exitAfterObs k j hjk)
    (fun he => hexit k he j hjk)
  noWriteAfterDone := fun j p => neverAfter_snoc (h.noWriteAfterDone j p) (by simp)
    (hwrite j p)
  obsAfterPub := fun j => precedes_snoc (h.obsAfterPub j) (fun he => absurd he (hobsE j))
  startGate := fun hu j => precedes_snoc (h.startGate hu j) (hgate hu j)
  observed := fun j hj => hobs j (by simpa [List.length_set] using hj)
  doneFlag := fun j w1 hj hd => by
    rcases getElem?_set_cases hj with ⟨hji, hw1⟩ | ⟨_, hold⟩
    · subst hji; subst hw1; exact hdone hd
    · exact mem_snoc_of_mem (h.doneFlag j w1 hold hd)
  pubPc := fun j w1 hj hp => by
    rcases getElem?_set_cases hj with ⟨hji, hw1⟩ | ⟨hji, hold⟩
    · subst hji; subst hw1; exact hpc hp
    · exact h.pubPc j w1 hold (mem_of_mem_snoc hp (fun he => hji (hpub j he.symm)))
  pubLt := fun j hp => by
    show j < (s.workers.set i w').length
    rw [List.length_set]
    by_cases he : Event.donePublished j = e
    · rw [hpub j he.symm]
      exact (List.getElem?_eq_some.mp hw).1
    · exact h.pubLt j (mem_of_mem_snoc hp he)
  startFlag := fun hu j w1 hj hs => by
    rcases getElem?_set_cases hj with ⟨hji, hw1⟩ | ⟨_, hold⟩
    · subst hji; subst hw1; exact hstart hu hs
    · exact mem_snoc_of_mem (h.startFlag hu j w1 hold hs)

/-- A step of worker `i` that changes only its control point, without an event. -/
theorem inv_of_silent (cfg : Setup) (s : System) (h : Inv cfg s)
    (i : Nat) (w w' : Worker)
    (hw : s.workers[i]? = some w) (hthread : w'.thread = w.thread)
    (hpc : Event.donePublished i ∈ s.trace →
      w'.pc = WorkerPc.waitExit ∨ w'.pc = WorkerPc.returned) :
    Inv cfg { s with workers := s.workers.set i w' } where
  readAfterObs := h.readAfterObs
  exitAfterObs := h.exitAfterObs
  noWriteAfterDone := h.noWriteAfterDone
  obsAfterPub := h.obsAfterPub
  startGate := h.startGate
  observed := fun j hj => h.observed j (by simpa [List.length_set] using hj)
  doneFlag := fun j w1 hj hd => by
    rcases getElem?_set_cases hj with ⟨hji, hw1⟩ | ⟨_, hold⟩
    · subst hji; subst hw1
      exact h.doneFlag j w hw (by rw [← hthread]; exact hd)
    · exact h.doneFlag j w1 hold hd
  pubPc := fun j w1 hj hp => by
    rcases getElem?_set_cases hj with ⟨hji, hw1⟩ | ⟨_, hold⟩
    · subst hji; subst hw1; exact hpc hp
    · exact h.pubPc j w1 hold hp
  pubLt := fun j hp => by
    show j < (s.workers.set i w').length
    rw [List.length_set]
    exact h.pubLt j hp
  startFlag := fun hu j w1 hj hs => by
    rcases getElem?_set_cases hj with ⟨hji, hw1⟩ | ⟨_, hold⟩
    · subst hji; subst hw1
      exact h.startFlag hu j w hw (by rw [← hthread]; exact hs)
    · exact h.startFlag hu j w1 hold hs

/-- The creation step of `main` keeps the invariant. -/
theorem inv_of_create (cfg : Setup) (s : System) (h : Inv cfg s) (i : Nat) :
    Inv cfg { mainPc := MainPc.create (i + 1)
              workers := s.workers ++ [newWorker cfg i]
              trace := s.trace ++ [Event.workerCreated i] } where
  readAfterObs := fun j => precedes_snoc (h.readAfterObs j) (by simp)
  exitAfterObs := fun k j hjk => precedes_snoc (h.exitAfterObs k j hjk) (by simp)
  noWriteAfterDone := fun j p => neverAfter_snoc (h.noWriteAfterDone j p) (by simp)
    (by simp)
  obsAfterPub := fun j => precedes_snoc (h.obsAfterPub j) (by simp)
  startGate := fun hu j => precedes_snoc (h.startGate hu j) (by simp)
  observed := fun j hj => by simp [mainObserved] at hj
  doneFlag := fun j w1 hj hd => by
    rw [List.getElem?_append] at hj
    split at hj
    · exact mem_snoc_of_mem (h.doneFlag j w1 hj hd)
    · rename_i hlen
      have hw1 : w1 = newWorker cfg i := by
        by_cases h0 : j - s.workers.length = 0
        · rw [h0] at hj; simpa using hj.symm
        · have : ([newWorker cfg i] : List Worker)[j - s.workers.length]? = none :=
            List.getElem?_eq_none (by simp; omega)
          rw [this] at hj
          exact Option.noConfusion hj
      subst hw1
      simp [newWorker] at hd
  pubPc := fun j w1 hj hp => by
    have hp' : Event.donePublished j ∈ s.trace := mem_of_mem_snoc hp (by simp)
    have hlt := h.pubLt j hp'
    rw [List.getElem?_append_left hlt] at hj
    exact h.pubPc j w1 hj hp'
  pubLt := fun j hp => by
    have hp' : Event.donePublished j ∈ s.trace := mem_of_mem_snoc hp (by simp)
    have hlt := h.pubLt j hp'
    show j < (s.workers ++ [newWorker cfg i]).length
    rw [List.length_append]
    omega
  startFlag := fun hu j w1 hj hs => by
    rw [List.getElem?_append] at hj
    split at hj
    · exact mem_snoc_of_mem (h.startFlag hu j w1 hj hs)
    · have hw1 : w1 = newWorker cfg i := by
        by_cases h0 : j - s.workers.length = 0
        · rw [h0] at hj; simpa using hj.symm
        · have : ([newWorker cfg i] : List Worker)[j - s.workers.length]? = none :=
            List.getElem?_eq_none (by simp; omega)
          rw [this] at hj
          exact Option.noConfusion hj
      subst hw1
      simp [newWorker, hu i] at hs

/-- Every step of `main` keeps the invariant. -/
theorem inv_mainStep (cfg : Setup) (s : System) (h : Inv cfg s) :
    Inv cfg (mainStep cfg s) := by
  unfold mainStep
  split
  · -- creation loop
    rename_i i hpc
    split
    · exact inv_of_create cfg s h i
    · exact inv_of_pc cfg s h _ (fun j hj => by simp [mainObserved] at hj)
  · -- start loop
    rename_i i hpc
    split
    · rename_i w hw
      refine inv_of_update cfg s h _ i w _ _ hw ?_ ?_ ?_ ?_ ?_ ?_ ?_ ?_ ?_ ?_
      · intro hd
        exact mem_snoc_of_mem (h.doneFlag i w hw hd)
      · intro hp
        exact h.pubPc i w hw (mem_of_mem_snoc hp (by simp))
      · intro _ _
        exact mem_snoc_self
      · intro j he; simp at he
      · intro j hj; simp [mainObserved] at hj
      · intro j; simp
      · intro k he; simp at he
      · intro j p he; simp at he
      · intro j; simp
      · intro _ j he; simp at he
    · exact inv_of_pc cfg s h _ (fun j hj => by simp [mainObserved] at hj)
  · -- wait for `workIsDone`
    rename_i i hpc
    split
    · rename_i w hw
      split
      · rename_i hdone
        refine inv_of_main_event cfg s h _ _ ?_ ?_ ?_ ?_ ?_ ?_ ?_
        · intro j hj
          have hj' : j ≤ i := hj
          by_cases hji : j = i
          · subst hji; exact mem_snoc_self
          · apply mem_snoc_of_mem
            apply h.observed j
            rw [hpc]
            show j < i
            omega
        · intro j he; simp at he
        · intro k he; simp at he
        · intro j p; simp
        · intro j he
          have hji : i = j := by simpa using he
          subst hji
          exact h.doneFlag i w hw hdone
        · intro j; simp
        · intro j; simp
      · exact h
    · rename_i hnone
      refine inv_of_pc cfg s h _ (fun j hj => ?_)
      have hlen : s.workers.length ≤ i := List.getElem?_eq_none_iff.mp hnone
      apply h.observed j
      rw [hpc]
      have hj' : j < s.workers.length := hj
      show j < i
      omega
  · -- set `exit`
    rename_i i hpc
    split
    · rename_i w hw
      refine inv_of_update cfg s h _ i w _ _ hw ?_ ?_ ?_ ?_ ?_ ?_ ?_ ?_ ?_ ?_
      · intro hd
        exact mem_snoc_of_mem (h.doneFlag i w hw hd)
      · intro hp
        exact h.pubPc i w hw (mem_of_mem_snoc hp (by simp))
      · intro hu hs
        exact mem_snoc_of_mem (h.startFlag hu i w hw hs)
      · intro j he; simp at he
      · intro j hj
        apply mem_snoc_of_mem
        apply h.observed j
        rw [hpc]
        exact hj
      · intro j; simp
      · intro k he j hjk
        have hki : i = k := by simpa using he
        subst hki
        apply h.observed j
        rw [hpc]
        exact hjk
      · intro j p he; simp at he
      · intro j; simp
      · intro _ j he; simp at he
    · exact h
  · -- join
    rename_i i hpc
    split
    · rename_i w hw
      split
      · refine inv_of_main_event cfg s h _ _ ?_ ?_ ?_ ?_ ?_ ?_ ?_
        · intro j hj
          apply mem_snoc_of_mem
          apply h.observed j
          rw [hpc]
          have hj' : j < i + 1 := hj
          show j ≤ i
          omega
        · intro j he; simp at he
        · intro k he; simp at he
        · intro j p; simp
        · intro j he; simp at he
        · intro j; simp
        · intro j; simp
      · exact h
    · exact h
  · -- assembly loop
    rename_i i hpc
    split
    · rename_i hlt
      refine inv_of_main_event cfg s h _ _ ?_ ?_ ?_ ?_ ?_ ?_ ?_
      · intro j hj
        apply mem_snoc_of_mem
        apply h.observed j
        rw [hpc]
        exact hj
      · intro j he
        have hji : i = j := by simpa using he
        subst hji
        apply h.observed i
        rw [hpc]
        exact hlt
      · intro k he; simp at he
      · intro j p; simp
      · intro j he; simp at he
      · intro j; simp
      · intro j; simp
    · refine inv_of_pc cfg s h _ (fun j hj => ?_)
      apply h.observed j
      rw [hpc]
      exact hj
  · exact h

/-- Every step of a worker keeps the invariant. -/
theorem inv_workerStep (cfg : Setup) (s : System) (h : Inv cfg s) (i : Nat) :
    Inv cfg (workerStep s i) := by
  unfold workerStep
  split
  · exact h
  · rename_i w hw
    have hobs : ∀ (e : Event) (j : Nat), mainObserved s.mainPc s.workers.length j →
        Event.doneObserved j ∈ s.trace ++ [e] :=
      fun e j hj => mem_snoc_of_mem (h.observed j hj)
    split
    · -- wait for `start`
      rename_i hpc
      split
      · rename_i hstart
        refine inv_of_update cfg s h _ i w _ _ hw ?_ ?_ ?_ ?_ (hobs _) ?_ ?_ ?_ ?_ ?_
        · intro hd
          exact mem_snoc_of_mem (h.doneFlag i w hw hd)
        · intro hp
          have := h.pubPc i w hw (mem_of_mem_snoc hp (by simp))
          rw [hpc] at this
          simp at this
        · intro hu hs
          exact mem_snoc_of_mem (h.startFlag hu i w hw hs)
        · intro j he; simp at he
        · intro j; simp
        · intro k he; simp at he
        · intro j p he; simp at he
        · intro j; simp
        · intro hu j he
          have hji : i = j := by simpa using he
          subst hji
          exact h.startFlag hu i w hw hstart
      · exact h
    · -- rendering loop
      rename_i stored hpc
      have hnot : Event.donePublished i ∉ s.trace := by
        intro hp
        have := h.pubPc i w hw hp
        rw [hpc] at this
        simp at this
      split
      · refine inv_of_update cfg s h _ i w _ _ hw ?_ ?_ ?_ ?_ (hobs _) ?_ ?_ ?_ ?_ ?_
        · intro hd
          exact mem_snoc_of_mem (h.doneFlag i w hw hd)
        · intro hp
          exact absurd (mem_of_mem_snoc hp (by simp)) hnot
        · intro hu hs
          exact mem_snoc_of_mem (h.startFlag hu i w hw hs)
        · intro j he; simp at he
        · intro j; simp
        · intro k he; simp at he
        · intro j p he
          have hji : i = j := by
            have := he
            simp at this
            exact this.1
          subst hji
          exact hnot
        · intro j; simp
        · intro _ j he; simp at he
      · exact inv_of_silent cfg s h i w _ hw rfl (fun hp => absurd hp hnot)
    · -- publish `workIsDone`
      rename_i hpc
      refine inv_of_update cfg s h _ i w _ _ hw ?_ ?_ ?_ ?_ (hobs _) ?_ ?_ ?_ ?_ ?_
      · intro _
        exact mem_snoc_self
      · intro _
        exact Or.inl rfl
      · intro hu hs
        exact mem_snoc_of_mem (h.startFlag hu i w hw hs)
      · intro j he
        have : i = j := by simpa using he
        exact this.symm
      · intro j; simp
      · intro k he; simp at he
      · intro j p he; simp at he
      · intro j; simp
      · intro _ j he; simp at he
    · -- wait for `exit`
      rename_i hpc
      split
      · refine inv_of_update cfg s h _ i w _ _ hw ?_ ?_ ?_ ?_ (hobs _) ?_ ?_ ?_ ?_ ?_
        · intro hd
          exact mem_snoc_of_mem (h.doneFlag i w hw hd)
        · intro _
          exact Or.inr rfl
        · intro hu hs
          exact mem_snoc_of_mem (h.startFlag hu i w hw hs)
        · intro j he; simp at he
        · intro j; simp
        · intro k he; simp at he
        · intro j p he; simp at he
        · intro j; simp
        · intro _ j he; simp at he
      · exact h
    · exact h

theorem inv_step (cfg : Setup) (s : System) (h : Inv cfg s) (a : ThreadId) :
    Inv cfg (step cfg s a) := by
  cases a with
  | main => exact inv_mainStep cfg s h
  | worker i => exact inv_workerStep cfg s h i

theorem inv_foldl (cfg : Setup) (schedule : List ThreadId) :
    ∀ s, Inv cfg s → Inv cfg (schedule.foldl (step cfg) s) := by
  induction schedule with
  | nil => intro s h; exact h
  | cons a rest ih => intro s h; exact ih _ (inv_step cfg s h a)

/-- The invariant holds in every state of every execution. -/
theorem inv_run (cfg : Setup) (schedule : List ThreadId) : Inv cfg (run cfg schedule) :=
  inv_foldl cfg schedule initialSystem (inv_initial cfg)

/-- When the `start` fields are `false` at creation, a worker leaves its
wait-for-start loop only after `main` has set its `start` flag. -/
theorem start_gate_of_initialised (cfg : Setup) (schedule : List ThreadId)
    (hinit : ∀ k, cfg.uninitStart k = false) (i : Nat) :
    Precedes (run cfg schedule).trace (Event.startSet i) (Event.startObserved i) :=
  (inv_run cfg schedule).startGate hinit i

/-- Claim C8, at the failing input. One worker whose freshly allocated
`WorkerThread` holds `start == true` (`main` assigns only `id` and
`workIsDone`): after `main` has created it, the worker leaves its wait-for-start
loop while `main` is still in the creation loop and no `start = true` has been
executed. -/
theorem C8_start_gate_violation :
    (run ⟨⟨1, 1, 3, 1, 3⟩, 1, fun _ => true, fun _ => false⟩
        [ThreadId.main, ThreadId.worker 0]).trace
      = [Event.workerCreated 0, Event.startObserved 0] ∧
    (run ⟨⟨1, 1, 3, 1, 3⟩, 1, fun _ => true, fun _ => false⟩
        [ThreadId.main, ThreadId.worker 0]).mainPc = MainPc.create 1 ∧
    (run ⟨⟨1, 1, 3, 1, 3⟩, 1, fun _ => true, fun _ => false⟩
        [ThreadId.main, ThreadId.worker 0]).workers.map (fun w => w.pc)
      = [WorkerPc.rendering 0] ∧
    ¬ Precedes
        (run ⟨⟨1, 1, 3, 1, 3⟩, 1, fun _ => true, fun _ => false⟩
          [ThreadId.main, ThreadId.worker 0]).trace
        (Event.startSet 0) (Event.startObserved 0) := by
  refine ⟨by decide, by decide, by decide, ?_⟩
  intro h
  obtain ⟨m, hm, hx⟩ := h 1 (by decide)
  have hm0 : m = 0 := by omega
  subst hm0
  revert hx
  decide

/-- Claim C9, as amended. In every execution, `main` sets the `exit` flag of
worker `k` only after it has observed the `workIsDone` flag of worker `k` and of
every worker before it in `workerThreadVector`. -/
theorem C9_exit_after_done (cfg : Setup) (schedule : List ThreadId) (k j : Nat)
    (hjk : j ≤ k) :
    Precedes (run cfg schedule).trace (Event.doneObserved j) (Event.exitSet k) :=
  (inv_run cfg schedule).exitAfterObs k j hjk

/-- Witness of C9: two workers; `exit` of worker 0 is set at position 8 of the
trace, after the done flag of worker 0 was observed. -/
theorem C9_exit_after_done_witness :
    0 ≤ 0 ∧
    ∃ m, m < 8 ∧
      (run ⟨⟨1, 2, 3, 1, 6⟩, 2, fun _ => false, fun _ => false⟩
        [ThreadId.main, ThreadId.main, ThreadId.main, ThreadId.main, ThreadId.main,
         ThreadId.main, ThreadId.worker 0, ThreadId.worker 0, ThreadId.worker 0,
         ThreadId.worker 0, ThreadId.main, ThreadId.main]).trace[m]?
        = some (Event.doneObserved 0) :=
  ⟨Nat.le_refl 0,
   C9_exit_after_done ⟨⟨1, 2, 3, 1, 6⟩, 2, fun _ => false, fun _ => false⟩
     [ThreadId.main, ThreadId.main, ThreadId.main, ThreadId.main, ThreadId.main,
      ThreadId.main, ThreadId.worker 0, ThreadId.worker 0, ThreadId.worker 0,
      ThreadId.worker 0, ThreadId.main, ThreadId.main] 0 0 (Nat.le_refl 0) 8 (by decide)⟩

/-- Counterexample to C9 as stated: two workers with `start` and `exit` false at
creation. `main` sets the `exit` flag of worker 0 (position 8 of the trace) when
worker 1 is still waiting in its loop with `workIsDone == false` and `main` has
not observed the done flag of worker 1. -/
theorem C9_counterexample :
    (run ⟨⟨1, 2, 3, 1, 6⟩, 2, fun _ => false, fun _ => false⟩
        [ThreadId.main, ThreadId.main, ThreadId.main, ThreadId.main, ThreadId.main,
         ThreadId.main, ThreadId.worker 0, ThreadId.worker 0, ThreadId.worker 0,
         ThreadId.worker 0, ThreadId.main, ThreadId.main]).trace
      = [Event.workerCreated 0, Event.workerCreated 1, Event.startSet 0, Event.startSet 1,
         Event.startObserved 0, Event.bufferWrite 0 0, Event.donePublished 0,
         Event.doneObserved 0, Event.exitSet 0] ∧
    (run ⟨⟨1, 2, 3, 1, 6⟩, 2, fun _ => false, fun _ => false⟩
        [ThreadId.main, ThreadId.main, ThreadId.main, ThreadId.main, ThreadId.main,
         ThreadId.main, ThreadId.worker 0, ThreadId.worker 0, ThreadId.worker 0,
         ThreadId.worker 0, ThreadId.main, ThreadId.main]).workers.map
        (fun w => (w.thread.workIsDone, w.thread.exit))
      = [(true, true), (false, false)] ∧
    ¬ Precedes
        (run ⟨⟨1, 2, 3, 1, 6⟩, 2, fun _ => false, fun _ => false⟩
          [ThreadId.main, ThreadId.main, ThreadId.main, ThreadId.main, ThreadId.main,
           ThreadId.main, ThreadId.worker 0, ThreadId.worker 0, ThreadId.worker 0,
           ThreadId.worker 0, ThreadId.main, ThreadId.main]).trace
        (Event.doneObserved 1) (Event.exitSet 0) := by
  refine ⟨by decide, by decide, ?_⟩
  intro h
  obtain ⟨m, hm, hx⟩ := h 8 (by decide)
  revert hx
  revert m
  decide

/-- Claim C10. In every execution, a worker writes no pixel to its private
buffer after it has set its `workIsDone` flag, and `main` reads the buffer of a
worker in the assembly loop only after it has observed that worker's
`workIsDone` flag, which it observes only after the worker has set it. -/
theorem C10_buffer_handoff (cfg : Setup) (schedule : List ThreadId) (i : Nat) :
    (∀ p, NeverAfter (run cfg schedule).trace (Event.donePublished i)
        (Event.bufferWrite i p)) ∧
    Precedes (run cfg schedule).trace (Event.doneObserved i) (Event.bufferRead i) ∧
    Precedes (run cfg schedule).trace (Event.donePublished i) (Event.doneObserved i) :=
  ⟨(inv_run cfg schedule).noWriteAfterDone i, (inv_run cfg schedule).readAfterObs i,
   (inv_run cfg schedule).obsAfterPub i⟩

/-- Witness of C10: a complete execution with one worker and one pixel. The
write is at position 3, the done flag is set at 4 and observed at 5, the buffer
is read at position 9. -/
theorem C10_buffer_handoff_witness :
    (run ⟨⟨1, 1, 3, 1, 3⟩, 1, fun _ => false, fun _ => false⟩
        [ThreadId.main, ThreadId.main, ThreadId.main, ThreadId.main,
         ThreadId.worker 0, ThreadId.worker 0, ThreadId.worker 0, ThreadId.worker 0,
         ThreadId.main, ThreadId.main, ThreadId.worker 0, ThreadId.main, ThreadId.main,
         ThreadId.main, ThreadId.main]).mainPc = MainPc.finished ∧
    3 < 4 ∧
    ∃ m, m < 9 ∧
      (run ⟨⟨1, 1, 3, 1, 3⟩, 1, fun _ => false, fun _ => false⟩
        [ThreadId.main, ThreadId.main, ThreadId.main, ThreadId.main,
         ThreadId.worker 0, ThreadId.worker 0, ThreadId.worker 0, ThreadId.worker 0,
         ThreadId.main, ThreadId.main, ThreadId.worker 0, ThreadId.main, ThreadId.main,
         ThreadId.main, ThreadId.main]).trace[m]? = some (Event.doneObserved 0) :=
  ⟨by decide,
   (C10_buffer_handoff ⟨⟨1, 1, 3, 1, 3⟩, 1, fun _ => false, fun _ => false⟩
      [ThreadId.main, ThreadId.main, ThreadId.main, ThreadId.main,
       ThreadId.worker 0, ThreadId.worker 0, ThreadId.worker 0, ThreadId.worker 0,
       ThreadId.main, ThreadId.main, ThreadId.worker 0, ThreadId.main, ThreadId.main,
       ThreadId.main, ThreadId.main] 0).1 0 3 4 (by decide) (by decide),
   (C10_buffer_handoff ⟨⟨1, 1, 3, 1, 3⟩, 1, fun _ => false, fun _ => false⟩
      [ThreadId.main, ThreadId.main, ThreadId.main, ThreadId.main,
       ThreadId.worker 0, ThreadId.worker 0, ThreadId.worker 0, ThreadId.worker 0,
       ThreadId.main, ThreadId.main, ThreadId.worker 0, ThreadId.main, ThreadId.main,
       ThreadId.main, ThreadId.main] 0).2.1 9 (by decide)⟩
/-! ## The GUI message loop -/

/-- Whatever `GetMessage` returns, the message loop neither logs the retrieval
error nor returns: the `bool` `status` is never equal to `-1`. -/
theorem guiMessageLoop_never_reports (rs : List Retrieval) :
    GuiEvent.errorLogged ∉ (guiMessageLoop rs).1 ∧
    ∀ code, (guiMessageLoop rs).2 ≠ LoopEnd.returned code := by
  induction rs with
  | nil => simp [guiMessageLoop]
  | cons r rest ih =>
    unfold guiMessageLoop
    by_cases hs : ((r.getMessage != 0) && (r.exit == false)) = true
    · have hne : boolToInt ((r.getMessage != 0) && (r.exit == false)) ≠ -1 := by
        rw [hs]; decide
      simp only [hs, if_true, if_neg hne]
      refine ⟨?_, ih.2⟩
      intro hmem
      rcases List.mem_cons.mp hmem with h | h
      · exact GuiEvent.noConfusion h
      · exact ih.1 h
    · simp only [hs]
      simp

/-- Claim C11, at the failing input. `GetMessage` returns `-1` while `exit` is
false: the message is dispatched, nothing is logged and the loop goes on (it is
left only by the next retrieval, here a `0`); `-1` is not returned. -/
theorem C11_retrieval_error_dispatched :
    guiMessageLoop [⟨-1, false⟩] = ([GuiEvent.messageDispatched], LoopEnd.running) ∧
    guiMessageLoop [⟨-1, false⟩, ⟨0, false⟩] = ([GuiEvent.messageDispatched], LoopEnd.left) ∧
    GuiEvent.errorLogged ∉ (guiMessageLoop [⟨-1, false⟩]).1 ∧
    (guiMessageLoop [⟨-1, false⟩]).2 ≠ LoopEnd.returned (-1) := by
  decide

/-! ## Row offsets -/

theorem createWorkerImageBuffer_rows (rp : RenderProperties) (N : Nat)
    (uninit : Nat → Nat → Nat) (i : Nat) :
    (createWorkerImageBuffer rp N uninit i).resHeightInPixels = workerRows rp N i ∧
    (createWorkerImageBuffer rp N uninit i).resWidthInPixels = rp.resWidthInPixels ∧
    (createWorkerImageBuffer rp N uninit i).sizeInBytes
      = wrap32 (wrap32 (workerRows rp N i * rp.resWidthInPixels) * rp.bytesPerPixel) ∧
    (createWorkerImageBuffer rp N uninit i).buffer.length
      = (createWorkerImageBuffer rp N uninit i).sizeInBytes := by
  refine ⟨rfl, rfl, rfl, ?_⟩
  simp [createWorkerImageBuffer]

/-- The row offset in closed form: `id * (H / N)` for every worker. -/
theorem rowOffsetInPixels_eq (rp : RenderProperties) (N : Nat) (uninit : Nat → Nat → Nat)
    (i : Nat) (hN : 1 ≤ N) (hN32 : N < 2 ^ 32) (hH : rp.resHeightInPixels < 2 ^ 32)
    (hi : i < N) :
    rowOffsetInPixels rp N i (createWorkerImageBuffer rp N uninit i)
      = i * (rp.resHeightInPixels / N) := by
  have h1 : wrap32 (N + 2 ^ 32 - 1) = N - 1 := by
    unfold wrap32
    omega
  have hle : i * (rp.resHeightInPixels / N) ≤ rp.resHeightInPixels := by
    calc i * (rp.resHeightInPixels / N) ≤ N * (rp.resHeightInPixels / N) :=
          Nat.mul_le_mul_right _ (Nat.le_of_lt hi)
      _ ≤ rp.resHeightInPixels := Nat.mul_div_le _ _
  unfold rowOffsetInPixels
  rw [h1]
  split
  · exact wrap32_of_lt (by omega)
  · rename_i hne
    rw [(createWorkerImageBuffer_rows rp N uninit i).1, workerRows_eq rp N i hN hN32 hH,
      if_neg hne]
    exact wrap32_of_lt (by omega)

theorem sum_workerRows_before (rp : RenderProperties) (N i : Nat) (hN : 1 ≤ N)
    (hN32 : N < 2 ^ 32) (hH : rp.resHeightInPixels < 2 ^ 32) (hi : i < N) :
    ((List.range i).map (workerRows rp N)).sum = i * (rp.resHeightInPixels / N) := by
  have hfront : (List.range i).map (workerRows rp N)
      = (List.range i).map (fun _ => rp.resHeightInPixels / N) := by
    apply List.map_congr_left
    intro j hj
    have hj' : j < i := List.mem_range.mp hj
    have hne : j ≠ N - 1 := by omega
    rw [workerRows_eq rp N j hN hN32 hH, if_neg hne]
  rw [hfront]
  simp

theorem take_workerImageBufferVector (rp : RenderProperties) (N : Nat)
    (uninit : Nat → Nat → Nat) (i : Nat) (hi : i ≤ N) :
    (workerImageBufferVector rp N uninit).take i
      = (List.range i).map (createWorkerImageBuffer rp N uninit) := by
  unfold workerImageBufferVector
  rw [← List.map_take, List.take_range, Nat.min_eq_left hi]

/-- Claim C12. For every height `H`, worker count `N >= 1` (both `uint32_t`) and
worker index `i < N`, the `rowOffsetInPixels` that `raytraceWorkerProcedure`
computes, by the last-worker branch or by the general one, equals the number of
rows `main` gave to the workers with a smaller index. -/
theorem C12_row_offset_is_rows_before (rp : RenderProperties) (N : Nat)
    (uninit : Nat → Nat → Nat) (i : Nat) (hN : 1 ≤ N) (hN32 : N < 2 ^ 32)
    (hH : rp.resHeightInPixels < 2 ^ 32) (hi : i < N) :
    rowOffsetInPixels rp N i (createWorkerImageBuffer rp N uninit i)
      = (((workerImageBufferVector rp N uninit).take i).map
          (fun wb => wb.resHeightInPixels)).sum := by
  rw [rowOffsetInPixels_eq rp N uninit i hN hN32 hH hi,
    take_workerImageBufferVector rp N uninit i (Nat.le_of_lt hi), List.map_map]
  have h : (fun wb => wb.resHeightInPixels) ∘ createWorkerImageBuffer rp N uninit
      = workerRows rp N := by
    funext j
    rfl
  rw [h, sum_workerRows_before rp N i hN hN32 hH hi]

/-- Witness of C12: height 10 over 4 workers; the last worker starts at row 6,
after 2 + 2 + 2 rows. -/
theorem C12_row_offset_is_rows_before_witness :
    (1 ≤ 4 ∧ 4 < 2 ^ 32 ∧ 10 < 2 ^ 32 ∧ 3 < 4) ∧
    rowOffsetInPixels ⟨3, 10, 3, 1, 90⟩ 4 3
        (createWorkerImageBuffer ⟨3, 10, 3, 1, 90⟩ 4 (fun _ _ => 0) 3)
      = (((workerImageBufferVector ⟨3, 10, 3, 1, 90⟩ 4 (fun _ _ => 0)).take 3).map
          (fun wb => wb.resHeightInPixels)).sum :=
  ⟨by decide,
   C12_row_offset_is_rows_before ⟨3, 10, 3, 1, 90⟩ 4 (fun _ _ => 0) 3 (by decide) (by decide)
     (by decide) (by decide)⟩

/-! ## The row passed to `SetPixel` -/

/-- For a sampled row `g = row + rowOffset < H`, line 599 passes `H - g` to
`SetPixel`: one more than the mirrored row `H - 1 - g`, and never `0`. -/
theorem setPixelRow_eq (rp : RenderProperties) (row rowOffset : Nat)
    (hH : rp.resHeightInPixels < 2 ^ 32) (hg : row + rowOffset < rp.resHeightInPixels) :
    setPixelRow rp row rowOffset = rp.resHeightInPixels - (row + rowOffset) ∧
    setPixelRow rp row rowOffset = (rp.resHeightInPixels - 1 - (row + rowOffset)) + 1 := by
  unfold setPixelRow wrap32
  have h1 : (row + rowOffset) % 2 ^ 32 = row + rowOffset := Nat.mod_eq_of_lt (by omega)
  rw [h1]
  omega

/-- Claim C15, at the failing input. Height 600 over 8 workers, worker 0, local
row 0 (sampled row `g = 0`): the row passed to `SetPixel` is 600, not the
mirrored row `600 - 1 - 0 = 599`, and 600 is not a row index of `0 .. 599`. -/
theorem C15_set_pixel_row_off_by_one :
    rowOffsetInPixels ⟨600, 600, 3, 1, 1080000⟩ 8 0
        (createWorkerImageBuffer ⟨600, 600, 3, 1, 1080000⟩ 8 (fun _ _ => 0) 0) = 0 ∧
    setPixelRow ⟨600, 600, 3, 1, 1080000⟩ 0
        (rowOffsetInPixels ⟨600, 600, 3, 1, 1080000⟩ 8 0
          (createWorkerImageBuffer ⟨600, 600, 3, 1, 1080000⟩ 8 (fun _ _ => 0) 0)) = 600 ∧
    setPixelRow ⟨600, 600, 3, 1, 1080000⟩ 0
        (rowOffsetInPixels ⟨600, 600, 3, 1, 1080000⟩ 8 0
          (createWorkerImageBuffer ⟨600, 600, 3, 1, 1080000⟩ 8 (fun _ _ => 0) 0))
      ≠ 600 - 1 - 0 ∧
    ¬ setPixelRow ⟨600, 600, 3, 1, 1080000⟩ 0
        (rowOffsetInPixels ⟨600, 600, 3, 1, 1080000⟩ 8 0
          (createWorkerImageBuffer ⟨600, 600, 3, 1, 1080000⟩ 8 (fun _ _ => 0) 0))
      ≤ 600 - 1 := by
  have h0 : rowOffsetInPixels ⟨600, 600, 3, 1, 1080000⟩ 8 0
        (createWorkerImageBuffer ⟨600, 600, 3, 1, 1080000⟩ 8 (fun _ _ => 0) 0) = 0 :=
    rowOffsetInPixels_eq ⟨600, 600, 3, 1, 1080000⟩ 8 (fun _ _ => 0) 0 (by decide) (by decide)
      (by decide) (by decide)
  rw [h0]
  decide

/-! ## Every row is rendered once -/

/-- The partition of `N * q + m` rows in `N - 1` blocks of `q` rows and a last
block of `q + m` rows, block `i` starting at `i * q`: each row lies in exactly
one block. -/
theorem block_partition (N q m : Nat) (hN : 1 ≤ N) (rows : Nat → Nat)
    (hrows : ∀ i, rows i = if i = N - 1 then q + m else q) :
    (∀ i r, i < N → r < rows i → i * q + r < N * q + m) ∧
    (∀ g, g < N * q + m →
      ∃! ir : Nat × Nat, ir.1 < N ∧ ir.2 < rows ir.1 ∧ ir.1 * q + ir.2 = g) := by
  have hNq : N * q = (N - 1) * q + q := by
    obtain ⟨M, rfl⟩ : ∃ M, N = M + 1 := ⟨N - 1, by omega⟩
    simp [Nat.succ_mul]
  have hmono : ∀ i, i < N - 1 → (i + 1) * q ≤ (N - 1) * q :=
    fun i hi => Nat.mul_le_mul_right q hi
  have hsucc : ∀ i, (i + 1) * q = i * q + q := fun i => Nat.succ_mul i q
  constructor
  · intro i r hi hr
    rw [hrows i] at hr
    split at hr
    · rename_i hlast
      subst hlast
      omega
    · rename_i hne
      have := hmono i (by omega)
      have := hsucc i
      omega
  · intro g hg
    by_cases hlow : g < (N - 1) * q
    · have hq : 0 < q := by
        rcases Nat.eq_zero_or_pos q with h0 | h0
        · subst h0; simp at hlow
        · exact h0
      have hdiv : g / q < N - 1 := (Nat.div_lt_iff_lt_mul hq).mpr hlow
      have hdm : g / q * q + g % q = g := by
        rw [Nat.mul_comm]; exact Nat.div_add_mod g q
      refine ⟨(g / q, g % q), ⟨by simp; omega, ?_, hdm⟩, ?_⟩
      · simp only
        rw [hrows, if_neg (by omega)]
        exact Nat.mod_lt _ hq
      · rintro ⟨i, r⟩ ⟨hi, hr, he⟩
        simp only at hi hr he
        rw [hrows i] at hr
        split at hr
        · rename_i hlast
          subst hlast
          omega
        · have hi' : i = g / q := by
            rw [← he, Nat.mul_comm, Nat.mul_add_div hq, Nat.div_eq_of_lt hr, Nat.add_zero]
          have hr' : r = g % q := by
            rw [← he, Nat.mul_comm, Nat.mul_add_mod, Nat.mod_eq_of_lt hr]
          rw [hi', hr']
    · refine ⟨(N - 1, g - (N - 1) * q), ⟨by simp; omega, ?_, by simp; omega⟩, ?_⟩
      · simp only
        rw [hrows, if_pos rfl]
        omega
      · rintro ⟨i, r⟩ ⟨hi, hr, he⟩
        simp only at hi hr he
        rw [hrows i] at hr
        split at hr
        · rename_i hlast
          subst hlast
          have : r = g - (N - 1) * q := by omega
          rw [this]
        · have := hmono i (by omega)
          have := hsucc i
          omega

/-- Claim C16. For every height `H` and worker count `N >= 1` (both `uint32_t`),
the map (worker `i`, local row `r`) to `rowOffset i + r`, over `i < N` and
`r < rows i`, with `rows` from `main` and `rowOffset` from
`raytraceWorkerProcedure`, stays below `H` and reaches every row `g < H` from
exactly one pair. -/
theorem C16_rows_rendered_once (rp : RenderProperties) (N : Nat)
    (uninit : Nat → Nat → Nat) (hN : 1 ≤ N) (hN32 : N < 2 ^ 32)
    (hH : rp.resHeightInPixels < 2 ^ 32) :
    (∀ i r, i < N → r < (createWorkerImageBuffer rp N uninit i).resHeightInPixels →
      rowOffsetInPixels rp N i (createWorkerImageBuffer rp N uninit i) + r
        < rp.resHeightInPixels) ∧
    (∀ g, g < rp.resHeightInPixels →
      ∃! ir : Nat × Nat, ir.1 < N ∧
        ir.2 < (createWorkerImageBuffer rp N uninit ir.1).resHeightInPixels ∧
        rowOffsetInPixels rp N ir.1 (createWorkerImageBuffer rp N uninit ir.1) + ir.2 = g) := by
  have hsplit : N * (rp.resHeightInPixels / N) + rp.resHeightInPixels % N
      = rp.resHeightInPixels := Nat.div_add_mod _ _
  obtain ⟨hin, hbij⟩ := block_partition N (rp.resHeightInPixels / N)
    (rp.resHeightInPixels % N) hN (workerRows rp N)
    (fun i => workerRows_eq rp N i hN hN32 hH)
  rw [hsplit] at hin hbij
  constructor
  · intro i r hi hr
    rw [rowOffsetInPixels_eq rp N uninit i hN hN32 hH hi]
    exact hin i r hi hr
  · intro g hg
    obtain ⟨ir, ⟨h1, h2, h3⟩, huniq⟩ := hbij g hg
    refine ⟨ir, ⟨h1, h2, ?_⟩, ?_⟩
    · rw [rowOffsetInPixels_eq rp N uninit ir.1 hN hN32 hH h1]
      exact h3
    · rintro jr ⟨k1, k2, k3⟩
      apply huniq
      refine ⟨k1, k2, ?_⟩
      rw [rowOffsetInPixels_eq rp N uninit jr.1 hN hN32 hH k1] at k3
      exact k3

/-- Witness of C16: height 10 over 4 workers; row 7 is local row 1 of worker 3,
and of no other pair. -/
theorem C16_rows_rendered_once_witness :
    (1 ≤ 4 ∧ 4 < 2 ^ 32 ∧ 10 < 2 ^ 32 ∧ 7 < 10) ∧
    ∃! ir : Nat × Nat, ir.1 < 4 ∧
      ir.2 < (createWorkerImageBuffer ⟨3, 10, 3, 1, 90⟩ 4 (fun _ _ => 0) ir.1).resHeightInPixels ∧
      rowOffsetInPixels ⟨3, 10, 3, 1, 90⟩ 4 ir.1
        (createWorkerImageBuffer ⟨3, 10, 3, 1, 90⟩ 4 (fun _ _ => 0) ir.1) + ir.2 = 7 :=
  ⟨by decide,
   (C16_rows_rendered_once ⟨3, 10, 3, 1, 90⟩ 4 (fun _ _ => 0) (by decide) (by decide)
      (by decide)).2 7 (by decide)⟩
/-! ## The rendering loop and the worker's buffer -/

theorem wrap32_add_mul (x y b : Nat) :
    wrap32 (wrap32 (wrap32 x * b) + wrap32 (y * b)) = (x * b + y * b) % 2 ^ 32 := by
  unfold wrap32
  rw [Nat.mod_mul_mod, Nat.add_mod_mod, Nat.mod_add_mod]

/-- Pixel `(row, column)` of a buffer of `rows` rows and `W` columns has an
ordinal below `rows * W`. -/
theorem pixel_ordinal_lt {rows W row column : Nat} (hr : row < rows) (hc : column < W) :
    row * W + column + 1 ≤ rows * W := by
  have h1 : (row + 1) * W ≤ rows * W := Nat.mul_le_mul_right W hr
  have h2 : (row + 1) * W = row * W + W := Nat.succ_mul row W
  omega

/-- Without wrap-around, `bufferIndex` is the pixel ordinal times the pixel
size, and the last byte of the pixel is inside `rows * W * b`. -/
theorem bufferIndex_eq (rp : RenderProperties) (rows row column : Nat)
    (hsize : rows * rp.resWidthInPixels * rp.bytesPerPixel < 2 ^ 32)
    (hr : row < rows) (hc : column < rp.resWidthInPixels) :
    bufferIndex rp row column = (row * rp.resWidthInPixels + column) * rp.bytesPerPixel ∧
    (row * rp.resWidthInPixels + column) * rp.bytesPerPixel + rp.bytesPerPixel
      ≤ rows * rp.resWidthInPixels * rp.bytesPerPixel := by
  have hp := pixel_ordinal_lt hr hc
  have h1 : (row * rp.resWidthInPixels + column + 1) * rp.bytesPerPixel
      ≤ rows * rp.resWidthInPixels * rp.bytesPerPixel := Nat.mul_le_mul_right _ hp
  have h2 : (row * rp.resWidthInPixels + column + 1) * rp.bytesPerPixel
      = (row * rp.resWidthInPixels + column) * rp.bytesPerPixel + rp.bytesPerPixel :=
    Nat.succ_mul _ _
  have h3 : (row * rp.resWidthInPixels + column) * rp.bytesPerPixel
      = row * rp.resWidthInPixels * rp.bytesPerPixel + column * rp.bytesPerPixel :=
    Nat.add_mul _ _ _
  refine ⟨?_, by omega⟩
  unfold bufferIndex
  rw [wrap32_add_mul, ← h3]
  exact Nat.mod_eq_of_lt (by omega)

theorem mem_renderLoopPixels (wb : WorkerImageBuffer) (p : Nat × Nat) :
    p ∈ renderLoopPixels wb ↔ p.1 < wb.resHeightInPixels ∧ p.2 < wb.resWidthInPixels := by
  unfold renderLoopPixels
  simp only [List.mem_flatMap, List.mem_reverse, List.mem_range, List.mem_map]
  constructor
  · rintro ⟨row, hrow, column, hcol, rfl⟩
    exact ⟨hrow, hcol⟩
  · rintro ⟨h1, h2⟩
    exact ⟨p.1, h1, p.2, h2, rfl⟩

/-- The size `main` gives the buffer of worker `i`, without wrap-around. -/
theorem createWorkerImageBuffer_size (rp : RenderProperties) (N : Nat)
    (uninit : Nat → Nat → Nat) (i : Nat)
    (hsize : workerRows rp N i * rp.resWidthInPixels * rp.bytesPerPixel < 2 ^ 32) :
    (createWorkerImageBuffer rp N uninit i).sizeInBytes
      = workerRows rp N i * rp.resWidthInPixels * rp.bytesPerPixel := by
  rw [(createWorkerImageBuffer_rows rp N uninit i).2.2.1]
  exact wrap32_mul_mul hsize

theorem getD_set_nat (l : List Nat) (i j a : Nat) :
    (l.set i a).getD j 0 = if i = j ∧ i < l.length then a else l.getD j 0 := by
  simp only [List.getD_eq_getElem?_getD, List.getElem?_set]
  by_cases hij : i = j
  · by_cases hlt : i < l.length
    · simp [hij, hlt, hij ▸ hlt]
    · have hnone : l[j]? = none := List.getElem?_eq_none (by omega)
      simp [hij, hlt, hij ▸ hlt, hnone]
  · simp [hij]

/-- The effect of the three stores of one pixel on a buffer that holds them. -/
theorem storePixel_spec (rp : RenderProperties) (color : Nat → Nat → Channels)
    (buffer : List Nat) (row column : Nat)
    (hin : bufferIndex rp row column + 2 < buffer.length)
    (h32 : bufferIndex rp row column + 2 < 2 ^ 32) :
    (storePixel rp color buffer row column).length = buffer.length ∧
    ∀ o, (storePixel rp color buffer row column).getD o 0 =
      if o = bufferIndex rp row column then (color row column).ib
      else if o = bufferIndex rp row column + 1 then (color row column).ig
      else if o = bufferIndex rp row column + 2 then (color row column).ir
      else buffer.getD o 0 := by
  unfold storePixel
  simp only []
  rw [wrap32_of_lt (by omega : bufferIndex rp row column + 1 < 2 ^ 32), wrap32_of_lt h32]
  refine ⟨by simp, fun o => ?_⟩
  rw [getD_set_nat, getD_set_nat, getD_set_nat]
  simp only [List.length_set]
  by_cases h0 : o = bufferIndex rp row column
  · subst h0
    have h1 : ¬ (bufferIndex rp row column + 2 = bufferIndex rp row column ∧
        bufferIndex rp row column + 2 < buffer.length) := by omega
    have h2 : ¬ (bufferIndex rp row column + 1 = bufferIndex rp row column ∧
        bufferIndex rp row column + 1 < buffer.length) := by omega
    have h3 : bufferIndex rp row column = bufferIndex rp row column ∧
        bufferIndex rp row column < buffer.length := ⟨rfl, by omega⟩
    rw [if_neg h1, if_neg h2, if_pos h3, if_pos rfl]
  · by_cases h1 : o = bufferIndex rp row column + 1
    · subst h1
      have h2 : ¬ (bufferIndex rp row column + 2 = bufferIndex rp row column + 1 ∧
          bufferIndex rp row column + 2 < buffer.length) := by omega
      have h3 : bufferIndex rp row column + 1 = bufferIndex rp row column + 1 ∧
          bufferIndex rp row column + 1 < buffer.length := ⟨rfl, by omega⟩
      rw [if_neg h2, if_pos h3, if_neg h0, if_pos rfl]
    · by_cases h2 : o = bufferIndex rp row column + 2
      · subst h2
        have h3 : bufferIndex rp row column + 2 = bufferIndex rp row column + 2 ∧
            bufferIndex rp row column + 2 < buffer.length := ⟨rfl, hin⟩
        rw [if_pos h3, if_neg h0, if_neg h1, if_pos rfl]
      · have h3 : ¬ (bufferIndex rp row column + 2 = o ∧
            bufferIndex rp row column + 2 < buffer.length) := by omega
        have h4 : ¬ (bufferIndex rp row column + 1 = o ∧
            bufferIndex rp row column + 1 < buffer.length) := by omega
        have h5 : ¬ (bufferIndex rp row column = o ∧
            bufferIndex rp row column < buffer.length) := by omega
        rw [if_neg h3, if_neg h4, if_neg h5, if_neg h0, if_neg h1, if_neg h2]

/-- The nested loops store the pixels of `renderLoopPixels`, in that order. -/
theorem renderWorkerBuffer_buffer (rp : RenderProperties) (color : Nat → Nat → Channels)
    (wb : WorkerImageBuffer) :
    (renderWorkerBuffer rp color wb).buffer
      = (renderLoopPixels wb).foldl (fun buf p => storePixel rp color buf p.1 p.2)
          wb.buffer := by
  unfold renderWorkerBuffer renderLoopPixels
  simp only []
  generalize (List.range wb.resHeightInPixels).reverse = rowList
  generalize wb.buffer = buffer
  induction rowList generalizing buffer with
  | nil => rfl
  | cons row rest ih =>
    rw [List.foldl_cons, List.flatMap_cons, List.foldl_append, ← ih]
    congr 1
    unfold renderRow
    rw [List.foldl_map]

/-- The pixel ordinal determines the pixel. -/
theorem pixel_ordinal_inj {W r c r' c' : Nat} (hc : c < W) (hc' : c' < W)
    (h : r * W + c = r' * W + c') : r = r' ∧ c = c' := by
  have hW : 0 < W := by omega
  have h1 : (W * r + c) / W = r := by
    rw [Nat.mul_add_div hW, Nat.div_eq_of_lt hc, Nat.add_zero]
  have h2 : (W * r' + c') / W = r' := by
    rw [Nat.mul_add_div hW, Nat.div_eq_of_lt hc', Nat.add_zero]
  have h3 : W * r + c = W * r' + c' := by
    rw [Nat.mul_comm W r, Nat.mul_comm W r']; exact h
  have hr : r = r' := by rw [← h1, ← h2, h3]
  subst hr
  exact ⟨rfl, by omega⟩

/-- Bytes `t, t' < b` of pixels with ordinals `x` and `y` coincide only for the
same pixel and the same byte. -/
theorem pixel_byte_inj {b x y t t' : Nat} (ht : t < b) (ht' : t' < b)
    (h : x * b + t = y * b + t') : x = y ∧ t = t' := by
  have hb : 0 < b := by omega
  have h1 : (b * x + t) / b = x := by
    rw [Nat.mul_add_div hb, Nat.div_eq_of_lt ht, Nat.add_zero]
  have h2 : (b * y + t') / b = y := by
    rw [Nat.mul_add_div hb, Nat.div_eq_of_lt ht', Nat.add_zero]
  have h3 : b * x + t = b * y + t' := by
    rw [Nat.mul_comm b x, Nat.mul_comm b y]; exact h
  have hx : x = y := by rw [← h1, ← h2, h3]
  subst hx
  exact ⟨rfl, by omega⟩

/-- Two different pixels of the buffer have disjoint byte triples. -/
theorem pixel_triples_disjoint (rp : RenderProperties) (rows : Nat) (p q : Nat × Nat)
    (hb : 3 ≤ rp.bytesPerPixel)
    (hsize : rows * rp.resWidthInPixels * rp.bytesPerPixel < 2 ^ 32)
    (hp : p.1 < rows ∧ p.2 < rp.resWidthInPixels)
    (hq : q.1 < rows ∧ q.2 < rp.resWidthInPixels) (hne : p ≠ q)
    (t t' : Nat) (ht : t < 3) (ht' : t' < 3) :
    bufferIndex rp p.1 p.2 + t ≠ bufferIndex rp q.1 q.2 + t' := by
  intro h
  rw [(bufferIndex_eq rp rows p.1 p.2 hsize hp.1 hp.2).1,
    (bufferIndex_eq rp rows q.1 q.2 hsize hq.1 hq.2).1] at h
  obtain ⟨hord, _⟩ := pixel_byte_inj (by omega : t < rp.bytesPerPixel)
    (by omega : t' < rp.bytesPerPixel) h
  obtain ⟨h1, h2⟩ := pixel_ordinal_inj hp.2 hq.2 hord
  exact hne (Prod.ext h1 h2)

/-- Storing a list of pixels of the buffer, in any order: the length is kept,
every pixel of the list ends with its three channels at its `bufferIndex`, and
a byte outside all their triples keeps its content. -/
theorem storePixels_spec (rp : RenderProperties) (color : Nat → Nat → Channels)
    (rows : Nat) (hb : 3 ≤ rp.bytesPerPixel)
    (hsize : rows * rp.resWidthInPixels * rp.bytesPerPixel < 2 ^ 32)
    (buffer : List Nat)
    (hlen : buffer.length = rows * rp.resWidthInPixels * rp.bytesPerPixel)
    (ps : List (Nat × Nat))
    (hvalid : ∀ p ∈ ps, p.1 < rows ∧ p.2 < rp.resWidthInPixels) :
    (ps.foldl (fun buf p => storePixel rp color buf p.1 p.2) buffer).length = buffer.length ∧
    (∀ p ∈ ps,
      (ps.foldl (fun buf p => storePixel rp color buf p.1 p.2) buffer).getD
          (bufferIndex rp p.1 p.2) 0 = (color p.1 p.2).ib ∧
      (ps.foldl (fun buf p => storePixel rp color buf p.1 p.2) buffer).getD
          (bufferIndex rp p.1 p.2 + 1) 0 = (color p.1 p.2).ig ∧
      (ps.foldl (fun buf p => storePixel rp color buf p.1 p.2) buffer).getD
          (bufferIndex rp p.1 p.2 + 2) 0 = (color p.1 p.2).ir) ∧
    (∀ o, (∀ p ∈ ps, ∀ t, t < 3 → o ≠ bufferIndex rp p.1 p.2 + t) →
      (ps.foldl (fun buf p => storePixel rp color buf p.1 p.2) buffer).getD o 0
        = buffer.getD o 0) := by
  induction ps using List.reverseRecOn with
  | nil =>
    refine ⟨rfl, ?_, fun o _ => rfl⟩
    intro p hp
    simp at hp
  | append_singleton ps q ih =>
    have hvalid' : ∀ p ∈ ps, p.1 < rows ∧ p.2 < rp.resWidthInPixels :=
      fun p hp => hvalid p (List.mem_append_left _ hp)
    have hq : q.1 < rows ∧ q.2 < rp.resWidthInPixels :=
      hvalid q (List.mem_append_right _ (List.mem_singleton.mpr rfl))
    obtain ⟨ihlen, ihpix, ihout⟩ := ih hvalid'
    rw [List.foldl_append]
    simp only [List.foldl_cons, List.foldl_nil]
    generalize ps.foldl (fun buf p => storePixel rp color buf p.1 p.2) buffer = mid
      at ihlen ihpix ihout
    obtain ⟨hidx, hle⟩ := bufferIndex_eq rp rows q.1 q.2 hsize hq.1 hq.2
    have hin : bufferIndex rp q.1 q.2 + 2 < mid.length := by
      rw [ihlen, hlen, hidx]; omega
    have h32 : bufferIndex rp q.1 q.2 + 2 < 2 ^ 32 := by
      rw [hidx]; omega
    obtain ⟨slen, sget⟩ := storePixel_spec rp color mid q.1 q.2 hin h32
    refine ⟨by rw [slen, ihlen], ?_, ?_⟩
    · intro p hp
      by_cases hpq : p = q
      · subst hpq
        refine ⟨?_, ?_, ?_⟩
        · rw [sget, if_pos rfl]
        · rw [sget, if_neg (by omega), if_pos rfl]
        · rw [sget, if_neg (by omega), if_neg (by omega), if_pos rfl]
      · have hp' : p ∈ ps := by
          rcases List.mem_append.mp hp with h | h
          · exact h
          · exact absurd (List.mem_singleton.mp h) hpq
        have hpv := hvalid' p hp'
        have hdis := pixel_triples_disjoint rp rows p q hb hsize hpv hq hpq
        obtain ⟨g0, g1, g2⟩ := ihpix p hp'
        have d00 := hdis 0 0 (by omega) (by omega)
        have d01 := hdis 0 1 (by omega) (by omega)
        have d02 := hdis 0 2 (by omega) (by omega)
        have d10 := hdis 1 0 (by omega) (by omega)
        have d11 := hdis 1 1 (by omega) (by omega)
        have d12 := hdis 1 2 (by omega) (by omega)
        have d20 := hdis 2 0 (by omega) (by omega)
        have d21 := hdis 2 1 (by omega) (by omega)
        have d22 := hdis 2 2 (by omega) (by omega)
        refine ⟨?_, ?_, ?_⟩
        · rw [sget, if_neg (by omega), if_neg (by omega), if_neg (by omega), g0]
        · rw [sget, if_neg (by omega), if_neg (by omega), if_neg (by omega), g1]
        · rw [sget, if_neg (by omega), if_neg (by omega), if_neg (by omega), g2]
    · intro o ho
      have hoq := ho q (List.mem_append_right _ (List.mem_singleton.mpr rfl))
      have e0 := hoq 0 (by omega)
      have e1 := hoq 1 (by omega)
      have e2 := hoq 2 (by omega)
      rw [sget, if_neg (by omega), if_neg (by omega), if_neg (by omega)]
      exact ihout o (fun p hp => ho p (List.mem_append_left _ hp))

/-- After the rendering loop of worker `i`, the buffer has its size and pixel
`(row, column)` holds the channels computed for it, blue first. -/
theorem renderWorkerBuffer_spec (rp : RenderProperties) (N : Nat)
    (uninit : Nat → Nat → Nat) (color : Nat → Nat → Channels) (i : Nat)
    (hb : 3 ≤ rp.bytesPerPixel)
    (hsize : workerRows rp N i * rp.resWidthInPixels * rp.bytesPerPixel < 2 ^ 32) :
    (renderWorkerBuffer rp color (createWorkerImageBuffer rp N uninit i)).sizeInBytes
      = workerRows rp N i * rp.resWidthInPixels * rp.bytesPerPixel ∧
    (renderWorkerBuffer rp color (createWorkerImageBuffer rp N uninit i)).buffer.length
      = workerRows rp N i * rp.resWidthInPixels * rp.bytesPerPixel ∧
    ∀ row column, row < workerRows rp N i → column < rp.resWidthInPixels →
      (renderWorkerBuffer rp color (createWorkerImageBuffer rp N uninit i)).buffer.getD
          ((row * rp.resWidthInPixels + column) * rp.bytesPerPixel) 0
        = (color row column).ib ∧
      (renderWorkerBuffer rp color (createWorkerImageBuffer rp N uninit i)).buffer.getD
          ((row * rp.resWidthInPixels + column) * rp.bytesPerPixel + 1) 0
        = (color row column).ig ∧
      (renderWorkerBuffer rp color (createWorkerImageBuffer rp N uninit i)).buffer.getD
          ((row * rp.resWidthInPixels + column) * rp.bytesPerPixel + 2) 0
        = (color row column).ir := by
  have hcsize := createWorkerImageBuffer_size rp N uninit i hsize
  have hclen : (createWorkerImageBuffer rp N uninit i).buffer.length
      = workerRows rp N i * rp.resWidthInPixels * rp.bytesPerPixel := by
    rw [(createWorkerImageBuffer_rows rp N uninit i).2.2.2, hcsize]
  obtain ⟨slen, spix, _⟩ := storePixels_spec rp color (workerRows rp N i) hb hsize
    (createWorkerImageBuffer rp N uninit i).buffer hclen
    (renderLoopPixels (createWorkerImageBuffer rp N uninit i))
    (fun p hp => (mem_renderLoopPixels _ p).mp hp)
  rw [renderWorkerBuffer_buffer]
  refine ⟨hcsize, by rw [slen, hclen], ?_⟩
  intro row column hr hc
  have hmem : (row, column) ∈ renderLoopPixels (createWorkerImageBuffer rp N uninit i) :=
    (mem_renderLoopPixels _ (row, column)).mpr ⟨hr, hc⟩
  have := spix (row, column) hmem
  simp only [] at this
  rw [(bufferIndex_eq rp (workerRows rp N i) row column hsize hr hc).1] at this
  exact this

theorem workerRows_le_height (rp : RenderProperties) (N i : Nat) (hN : 1 ≤ N)
    (hN32 : N < 2 ^ 32) (hH : rp.resHeightInPixels < 2 ^ 32) :
    workerRows rp N i ≤ rp.resHeightInPixels := by
  rw [workerRows_eq rp N i hN hN32 hH]
  have h1 := Nat.div_add_mod rp.resHeightInPixels N
  have h2 : rp.resHeightInPixels / N ≤ N * (rp.resHeightInPixels / N) :=
    Nat.le_mul_of_pos_left _ hN
  split <;> omega

theorem worker_size_small (rp : RenderProperties) (N i : Nat) (hN : 1 ≤ N)
    (hN32 : N < 2 ^ 32) (hH : rp.resHeightInPixels < 2 ^ 32)
    (hsize : rp.resWidthInPixels * rp.resHeightInPixels * rp.bytesPerPixel < 2 ^ 32) :
    workerRows rp N i * rp.resWidthInPixels * rp.bytesPerPixel < 2 ^ 32 := by
  have h1 : workerRows rp N i * rp.resWidthInPixels * rp.bytesPerPixel
      ≤ rp.resHeightInPixels * rp.resWidthInPixels * rp.bytesPerPixel :=
    Nat.mul_le_mul_right _ (Nat.mul_le_mul_right _ (workerRows_le_height rp N i hN hN32 hH))
  have h2 : rp.resHeightInPixels * rp.resWidthInPixels * rp.bytesPerPixel
      = rp.resWidthInPixels * rp.resHeightInPixels * rp.bytesPerPixel := by ring
  omega

theorem renderedBufferVector_getElem? (rp : RenderProperties) (N : Nat)
    (uninit : Nat → Nat → Nat) (color : Nat → Nat → Nat → Channels) (i : Nat) (hi : i < N) :
    (renderedBufferVector rp N uninit color)[i]?
      = some (renderWorkerBuffer rp (color i) (createWorkerImageBuffer rp N uninit i)) := by
  simp [renderedBufferVector, List.getElem?_map, List.getElem?_range hi]

/-- Rendering changes no size: the rendered buffers have the sizes `main` chose. -/
theorem renderedBufferVector_sizes (rp : RenderProperties) (N : Nat)
    (uninit : Nat → Nat → Nat) (color : Nat → Nat → Nat → Channels) :
    (renderedBufferVector rp N uninit color).map (fun wb => wb.sizeInBytes)
      = (workerImageBufferVector rp N uninit).map (fun wb => wb.sizeInBytes) := by
  unfold renderedBufferVector workerImageBufferVector
  rw [List.map_map, List.map_map]
  rfl

theorem startOffset_eq_sum (bufs : List WorkerImageBuffer) (j : Nat) :
    startOffset bufs j = ((bufs.map (fun wb => wb.sizeInBytes)).take j).sum := by
  unfold startOffset totalSize
  rw [List.map_take]

/-- Worker `i` of the rendered vector starts at `rowOffset * W * b`. -/
theorem startOffset_rendered (rp : RenderProperties) (N : Nat)
    (uninit : Nat → Nat → Nat) (color : Nat → Nat → Nat → Channels) (i : Nat)
    (hN : 1 ≤ N) (hN32 : N < 2 ^ 32) (hH : rp.resHeightInPixels < 2 ^ 32)
    (hsize : rp.resWidthInPixels * rp.resHeightInPixels * rp.bytesPerPixel < 2 ^ 32)
    (hi : i < N) :
    startOffset (renderedBufferVector rp N uninit color) i
      = i * (rp.resHeightInPixels / N) * rp.resWidthInPixels * rp.bytesPerPixel := by
  rw [startOffset_eq_sum, renderedBufferVector_sizes, ← List.map_take,
    take_workerImageBufferVector rp N uninit i (Nat.le_of_lt hi), List.map_map]
  have hconst : (List.range i).map
        ((fun wb => wb.sizeInBytes) ∘ createWorkerImageBuffer rp N uninit)
      = (List.range i).map
        (fun _ => rp.resHeightInPixels / N * rp.resWidthInPixels * rp.bytesPerPixel) := by
    apply List.map_congr_left
    intro j hj
    have hj' : j < i := List.mem_range.mp hj
    have hne : j ≠ N - 1 := by omega
    show (createWorkerImageBuffer rp N uninit j).sizeInBytes = _
    rw [createWorkerImageBuffer_size rp N uninit j (worker_size_small rp N j hN hN32 hH hsize),
      workerRows_eq rp N j hN hN32 hH, if_neg hne]
  rw [hconst]
  simp only [List.map_const', List.length_range, List.sum_replicate, smul_eq_mul]
  ring

theorem totalSize_rendered (rp : RenderProperties) (N : Nat)
    (uninit : Nat → Nat → Nat) (color : Nat → Nat → Nat → Channels)
    (hN : 1 ≤ N) (hN32 : N < 2 ^ 32) (hH : rp.resHeightInPixels < 2 ^ 32)
    (hsize : rp.resWidthInPixels * rp.resHeightInPixels * rp.bytesPerPixel < 2 ^ 32) :
    totalSize (renderedBufferVector rp N uninit color)
      = rp.resWidthInPixels * rp.resHeightInPixels * rp.bytesPerPixel := by
  have h1 : totalSize (renderedBufferVector rp N uninit color)
      = totalSize (workerImageBufferVector rp N uninit) := by
    unfold totalSize
    rw [renderedBufferVector_sizes]
  rw [h1, totalSize_workerImageBufferVector rp N uninit
      (fun i _ => worker_size_small rp N i hN hN32 hH hsize),
    sum_workerRows rp N hN hN32 hH]
  ring

/-- A worker's size range ends within the total size. -/
theorem startOffset_add_size_le (bufs : List WorkerImageBuffer) :
    ∀ (j : Nat) (wb : WorkerImageBuffer), bufs[j]? = some wb →
      startOffset bufs j + wb.sizeInBytes ≤ totalSize bufs := by
  induction bufs with
  | nil => intro j wb h; simp at h
  | cons b rest ih =>
    intro j wb h
    rw [totalSize_cons]
    cases j with
    | zero =>
      simp only [List.getElem?_cons_zero, Option.some.injEq] at h
      subst h
      rw [startOffset_zero]
      omega
    | succ j =>
      simp only [List.getElem?_cons_succ] at h
      rw [startOffset_cons_succ]
      have := ih j wb h
      omega

/-- The assembled image, byte by byte, for properties with a final size that
does not wrap and worker buffers whose sizes an `int` can count. -/
theorem assembled_pixel (rp : RenderProperties) (N : Nat) (uninit : Nat → Nat → Nat)
    (finalUninit : Nat → Nat) (color : Nat → Nat → Nat → Channels)
    (hN : 1 ≤ N) (hN32 : N < 2 ^ 32) (hH : rp.resHeightInPixels < 2 ^ 32)
    (hb : 3 ≤ rp.bytesPerPixel)
    (hsize : rp.resWidthInPixels * rp.resHeightInPixels * rp.bytesPerPixel < 2 ^ 32)
    (hfinal : rp.finalImageBufferSizeInBytes
      = rp.resWidthInPixels * rp.resHeightInPixels * rp.bytesPerPixel)
    (hbound : ∀ j, j < N → (createWorkerImageBuffer rp N uninit j).sizeInBytes ≤ INT_MAX) :
    ∃ s, assembleFinalImage rp.finalImageBufferSizeInBytes finalUninit
        (renderedBufferVector rp N uninit color) = some s ∧
    ∀ i r c t, i < N → r < workerRows rp N i → c < rp.resWidthInPixels → t < 3 →
      s.finalImageBuffer
        (((rowOffsetInPixels rp N i (createWorkerImageBuffer rp N uninit i) + r)
            * rp.resWidthInPixels + c) * rp.bytesPerPixel + t)
      = (renderWorkerBuffer rp (color i) (createWorkerImageBuffer rp N uninit i)).buffer.getD
          ((r * rp.resWidthInPixels + c) * rp.bytesPerPixel + t) 0 := by
  have hC : rp.finalImageBufferSizeInBytes < 2 ^ 32 := by rw [hfinal]; exact hsize
  have hbound' : ∀ wb ∈ renderedBufferVector rp N uninit color, wb.sizeInBytes ≤ INT_MAX := by
    intro wb hwb
    unfold renderedBufferVector at hwb
    obtain ⟨j, hj, rfl⟩ := List.mem_map.mp hwb
    exact hbound j (List.mem_range.mp hj)
  obtain ⟨s, hrun, _, hmem⟩ := assembleFinalImage_spec rp.finalImageBufferSizeInBytes hC
    finalUninit (renderedBufferVector rp N uninit color) hbound'
  refine ⟨s, hrun, ?_⟩
  intro i r c t hi hr hc ht
  have hws := worker_size_small rp N i hN hN32 hH hsize
  have hget := renderedBufferVector_getElem? rp N uninit color i hi
  have hstart := startOffset_rendered rp N uninit color i hN hN32 hH hsize hi
  have htotal := totalSize_rendered rp N uninit color hN hN32 hH hsize
  obtain ⟨hrsize, _, _⟩ := renderWorkerBuffer_spec rp N uninit (color i) i hb hws
  have hle := (bufferIndex_eq rp (workerRows rp N i) r c hws hr hc).2
  have hoff : (r * rp.resWidthInPixels + c) * rp.bytesPerPixel + t
      < (renderWorkerBuffer rp (color i) (createWorkerImageBuffer rp N uninit i)).sizeInBytes := by
    rw [hrsize]; omega
  have hend := startOffset_add_size_le _ i _ hget
  have hk : ((rowOffsetInPixels rp N i (createWorkerImageBuffer rp N uninit i) + r)
          * rp.resWidthInPixels + c) * rp.bytesPerPixel + t
      = startOffset (renderedBufferVector rp N uninit color) i
        + ((r * rp.resWidthInPixels + c) * rp.bytesPerPixel + t) := by
    rw [hstart, rowOffsetInPixels_eq rp N uninit i hN hN32 hH hi]
    ring
  rw [hk, hmem,
    if_pos (by rw [htotal, ← hfinal, Nat.min_self]; rw [htotal, ← hfinal] at hend; omega)]
  exact flatMap_getD_startOffset _ i _ _ hget hoff

/-- Claim C14, as amended. For every `H`, `W`, `N >= 1` and pixel size `b >= 3`
with `W * H * b < 2 ^ 32`, and every worker buffer of a size an `int` can count
(at most `INT_MAX`): after every worker has rendered its buffer and `main` has
assembled the final buffer, the assembly has a result, and the pixel worker `i`
computed for local row `r` and column `c`, sampled at global row
`g = rowOffset i + r`, is at the final-buffer offsets `(g * W + c) * b`, `+ 1`
and `+ 2`, which hold the blue, green and red channel of the image at row `g`
and column `c`, in that order. -/
theorem C14_row_major_layout (rp : RenderProperties) (bpp N : Nat)
    (uninit : Nat → Nat → Nat) (finalUninit : Nat → Nat)
    (shade : Nat → Nat → Channels)
    (hN : 1 ≤ N) (hN32 : N < 2 ^ 32) (hH : rp.resHeightInPixels < 2 ^ 32)
    (hb : 3 ≤ bpp)
    (hsize : rp.resWidthInPixels * rp.resHeightInPixels * bpp < 2 ^ 32)
    (hbound : ∀ j, j < N →
      (createWorkerImageBuffer (setBufferProperties rp bpp) N uninit j).sizeInBytes
        ≤ INT_MAX) :
    ∃ s, assembleFinalImage (setBufferProperties rp bpp).finalImageBufferSizeInBytes
        finalUninit (renderedImageBuffers (setBufferProperties rp bpp) N uninit shade)
        = some s ∧
    ∀ i r c, i < N →
      r < (createWorkerImageBuffer (setBufferProperties rp bpp) N uninit i).resHeightInPixels →
      c < rp.resWidthInPixels →
      s.finalImageBuffer
          ((sampledRow r (rowOffsetInPixels (setBufferProperties rp bpp) N i
              (createWorkerImageBuffer (setBufferProperties rp bpp) N uninit i))
            * rp.resWidthInPixels + c) * bpp)
        = (shade (sampledRow r (rowOffsetInPixels (setBufferProperties rp bpp) N i
              (createWorkerImageBuffer (setBufferProperties rp bpp) N uninit i))) c).ib ∧
      s.finalImageBuffer
          ((sampledRow r (rowOffsetInPixels (setBufferProperties rp bpp) N i
              (createWorkerImageBuffer (setBufferProperties rp bpp) N uninit i))
            * rp.resWidthInPixels + c) * bpp + 1)
        = (shade (sampledRow r (rowOffsetInPixels (setBufferProperties rp bpp) N i
              (createWorkerImageBuffer (setBufferProperties rp bpp) N uninit i))) c).ig ∧
      s.finalImageBuffer
          ((sampledRow r (rowOffsetInPixels (setBufferProperties rp bpp) N i
              (createWorkerImageBuffer (setBufferProperties rp bpp) N uninit i))
            * rp.resWidthInPixels + c) * bpp + 2)
        = (shade (sampledRow r (rowOffsetInPixels (setBufferProperties rp bpp) N i
              (createWorkerImageBuffer (setBufferProperties rp bpp) N uninit i))) c).ir := by
  obtain ⟨hw, hh, hbp, hf⟩ := setBufferProperties_fields rp bpp
  generalize setBufferProperties rp bpp = rp' at hw hh hbp hf hbound
  have hH' : rp'.resHeightInPixels < 2 ^ 32 := by rw [hh]; exact hH
  have hb' : 3 ≤ rp'.bytesPerPixel := by rw [hbp]; exact hb
  have hsize' : rp'.resWidthInPixels * rp'.resHeightInPixels * rp'.bytesPerPixel < 2 ^ 32 := by
    rw [hw, hh, hbp]; exact hsize
  have hfinal : rp'.finalImageBufferSizeInBytes
      = rp'.resWidthInPixels * rp'.resHeightInPixels * rp'.bytesPerPixel := by
    rw [hf, hw, hh, hbp, wrap32_mul_mul hsize]
  obtain ⟨s, hrun, hpixel⟩ := assembled_pixel rp' N uninit finalUninit
    (fun i => workerColor shade (rowOffsetInPixels rp' N i (createWorkerImageBuffer rp' N uninit i)))
    hN hN32 hH' hb' hsize' hfinal hbound
  refine ⟨s, hrun, ?_⟩
  intro i r c hi hr hc
  have hr' : r < workerRows rp' N i := hr
  have hc' : c < rp'.resWidthInPixels := by rw [hw]; exact hc
  have hws := worker_size_small rp' N i hN hN32 hH' hsize'
  obtain ⟨_, _, hpix⟩ := renderWorkerBuffer_spec rp' N uninit
    (workerColor shade (rowOffsetInPixels rp' N i (createWorkerImageBuffer rp' N uninit i)))
    i hb' hws
  obtain ⟨p0, p1, p2⟩ := hpix r c hr' hc'
  have a0 := hpixel i r c 0 hi hr' hc' (by decide)
  have a1 := hpixel i r c 1 hi hr' hc' (by decide)
  have a2 := hpixel i r c 2 hi hr' hc' (by decide)
  rw [hw, hbp] at a0 a1 a2 p0 p1 p2
  rw [Nat.add_zero] at a0
  rw [Nat.add_zero] at a0
  have hg : sampledRow r (rowOffsetInPixels rp' N i (createWorkerImageBuffer rp' N uninit i))
      = rowOffsetInPixels rp' N i (createWorkerImageBuffer rp' N uninit i) + r :=
    Nat.add_comm _ _
  have q0 : _ = (shade (sampledRow r
      (rowOffsetInPixels rp' N i (createWorkerImageBuffer rp' N uninit i))) c).ib := p0
  have q1 : _ = (shade (sampledRow r
      (rowOffsetInPixels rp' N i (createWorkerImageBuffer rp' N uninit i))) c).ig := p1
  have q2 : _ = (shade (sampledRow r
      (rowOffsetInPixels rp' N i (createWorkerImageBuffer rp' N uninit i))) c).ir := p2
  rw [← hg] at a0 a1 a2
  exact ⟨a0.trans q0, a1.trans q1, a2.trans q2⟩

/-- Witness of C14: a 2 x 3 image of 3-byte pixels over 2 workers. Worker 1
starts at row 1; its pixel at local row 1, column 1 is sampled at global row 2
and lies at the offsets 15, 16, 17 of the final buffer. -/
theorem C14_row_major_layout_witness :
    (1 ≤ 2 ∧ 2 < 2 ^ 32 ∧ 3 < 2 ^ 32 ∧ 3 ≤ 3 ∧ 2 * 3 * 3 < 2 ^ 32 ∧
      (∀ j, j < 2 →
        (createWorkerImageBuffer (setBufferProperties ⟨2, 3, 0, 1, 0⟩ 3) 2
          (fun _ _ => 0) j).sizeInBytes ≤ INT_MAX) ∧
      1 < 2 ∧
      1 < (createWorkerImageBuffer (setBufferProperties ⟨2, 3, 0, 1, 0⟩ 3) 2
            (fun _ _ => 0) 1).resHeightInPixels ∧ 1 < 2) ∧
    sampledRow 1 (rowOffsetInPixels (setBufferProperties ⟨2, 3, 0, 1, 0⟩ 3) 2 1
      (createWorkerImageBuffer (setBufferProperties ⟨2, 3, 0, 1, 0⟩ 3) 2 (fun _ _ => 0) 1))
      = 2 ∧
    ∃ s, assembleFinalImage
        (setBufferProperties ⟨2, 3, 0, 1, 0⟩ 3).finalImageBufferSizeInBytes (fun _ => 0)
        (renderedImageBuffers (setBufferProperties ⟨2, 3, 0, 1, 0⟩ 3) 2 (fun _ _ => 0)
          (fun g c => ⟨200 + 10 * g + c, 400 + 10 * g + c, 10 * g + c⟩)) = some s ∧
      s.finalImageBuffer
          ((sampledRow 1 (rowOffsetInPixels (setBufferProperties ⟨2, 3, 0, 1, 0⟩ 3) 2 1
              (createWorkerImageBuffer (setBufferProperties ⟨2, 3, 0, 1, 0⟩ 3) 2
                (fun _ _ => 0) 1)) * 2 + 1) * 3)
        = 10 * sampledRow 1 (rowOffsetInPixels (setBufferProperties ⟨2, 3, 0, 1, 0⟩ 3) 2 1
            (createWorkerImageBuffer (setBufferProperties ⟨2, 3, 0, 1, 0⟩ 3) 2
              (fun _ _ => 0) 1)) + 1 :=
  ⟨by decide, by decide,
   (C14_row_major_layout ⟨2, 3, 0, 1, 0⟩ 3 2 (fun _ _ => 0) (fun _ => 0)
      (fun g c => ⟨200 + 10 * g + c, 400 + 10 * g + c, 10 * g + c⟩)
      (by decide) (by decide) (by decide) (by decide) (by decide) (by decide)).imp
     (fun _ h => ⟨h.1, (h.2 1 1 1 (by decide) (by decide) (by decide)).1⟩)⟩

/-- Counterexample to C14 as stated: one worker, a 30000 x 30000 image of 3-byte
pixels. `W * H * b = 2700000000` is below `2 ^ 32` and `b >= 3`, but the single
worker buffer has that size, above `INT_MAX`: the `int` counter of the copy loop
overflows and the assembly has no defined result, so no final buffer holds the
pixels. -/
theorem C14_counterexample :
    (1 ≤ 1 ∧ 1 < 2 ^ 32 ∧ 30000 < 2 ^ 32 ∧ 3 ≤ 3 ∧ 30000 * 30000 * 3 < 2 ^ 32) ∧
    (renderedImageBuffers (setBufferProperties ⟨30000, 30000, 0, 1, 0⟩ 3) 1
        (fun _ _ => 0) (fun g c => ⟨g, c, g + c⟩)).map (fun wb => wb.sizeInBytes)
      = [2700000000] ∧
    assembleFinalImage
        (setBufferProperties ⟨30000, 30000, 0, 1, 0⟩ 3).finalImageBufferSizeInBytes
        (fun _ => 0)
        (renderedImageBuffers (setBufferProperties ⟨30000, 30000, 0, 1, 0⟩ 3) 1
          (fun _ _ => 0) (fun g c => ⟨g, c, g + c⟩)) = none := by
  refine ⟨by decide, by decide, ?_⟩
  exact assembleFinalImage_of_gt _ _ _
    (renderWorkerBuffer (setBufferProperties ⟨30000, 30000, 0, 1, 0⟩ 3)
      (workerColor (fun g c => ⟨g, c, g + c⟩)
        (rowOffsetInPixels (setBufferProperties ⟨30000, 30000, 0, 1, 0⟩ 3) 1 0
          (createWorkerImageBuffer (setBufferProperties ⟨30000, 30000, 0, 1, 0⟩ 3) 1
            (fun _ _ => 0) 0)))
      (createWorkerImageBuffer (setBufferProperties ⟨30000, 30000, 0, 1, 0⟩ 3) 1
        (fun _ _ => 0) 0))
    (List.getElem?_mem (renderedBufferVector_getElem? _ 1 _ _ 0 (by decide)))
    (by decide)

end RayTracer
